import Mathlib

/-!
# Verification of the nand2tetris toolchain (assembler, VM translator, Jack compiler)

Shallow embedding of the Rust sources:
* `projects/06/assembler`   — Hack assembler (`Asm` namespace)
* `projects/07/vmtranslator` — VM-to-Hack translator (`VMT` namespace)
* `projects/10/jack_analyzer` — Jack tokenizer and VM code generator (`Jack` namespace)

Rust conventions are modelled as follows: `i16` values are carried as `Int`
(counters that only ever increase from 0 are carried as `Nat`); a Rust `panic!`
or `unwrap` failure is an `Except.error ()`; strings are processed through
their character lists so that every operation is structurally recursive and
kernel-computable.  The `Mach` namespace is a semantics of the Hack machine
used to give meaning to the emitted assembly text; it is verification
infrastructure, not part of the embedded program.
-/

namespace Rust

/-- Decimal digits of a natural number, most significant first, as produced by
Rust's `Display` for unsigned integers.  Fuel-based so that the definition is
structurally recursive and computes inside the kernel. -/
def natToCharsAux : Nat → Nat → List Char
  | 0, _ => []
  | fuel + 1, n =>
    if n < 10 then [Nat.digitChar n]
    else natToCharsAux fuel (n / 10) ++ [Nat.digitChar (n % 10)]

/-- Decimal representation of a `Nat`, e.g. `natToChars 205 = ['2','0','5']`. -/
def natToChars (n : Nat) : List Char := natToCharsAux (n + 1) n

/-- `format!("{}", n)` for an unsigned integer. -/
def natToString (n : Nat) : String := ⟨natToChars n⟩

/-- `format!("{}", v)` for a Rust `i16` value carried as `Int`. -/
def intToString (v : Int) : String :=
  if v < 0 then "-" ++ natToString (-v).toNat else natToString v.toNat

/-- The numeric value of a list of decimal digit characters. -/
def digitsVal (cs : List Char) : Nat :=
  cs.foldl (fun a c => 10 * a + (c.toNat - 48)) 0

/-- `str::parse::<u…>`-style digit-string recognition: `some` value when the
list is a nonempty string of ASCII digits. -/
def parseNat? (cs : List Char) : Option Nat :=
  if cs = [] then none
  else if cs.all Char.isDigit then some (digitsVal cs) else none

/-- Rust `str::parse::<i16>()` on a character list: an optional sign followed
by at least one ASCII digit, value within `[-32768, 32767]`; anything else is
`none` (Rust returns `Err`). -/
def parseI16? (cs : List Char) : Option Int :=
  match cs with
  | [] => none
  | c :: rest =>
    if c = '-' then
      match parseNat? rest with
      | some v => if v ≤ 32768 then some (-(v : Int)) else none
      | none => none
    else if c = '+' then
      match parseNat? rest with
      | some v => if v ≤ 32767 then some (v : Int) else none
      | none => none
    else
      match parseNat? (c :: rest) with
      | some v => if v ≤ 32767 then some (v : Int) else none
      | none => none

/-- Rust `str::parse::<i16>()` on a string. -/
def parseI16S (s : String) : Option Int := parseI16? s.data

/-- `str::trim` (ASCII whitespace; the sources only meet ASCII input). -/
def trimChars (cs : List Char) : List Char :=
  ((cs.dropWhile Char.isWhitespace).reverse.dropWhile Char.isWhitespace).reverse

/-- First occurrence of a single separator character:
`str::split_once(sep)`. -/
def splitOnceChar (sep : Char) : List Char → Option (List Char × List Char)
  | [] => none
  | c :: rest =>
    if c = sep then some ([], rest)
    else
      match splitOnceChar sep rest with
      | some (l, r) => some (c :: l, r)
      | none => none

/-- `str::split_once("//")` — split at the first occurrence of two adjacent
slashes. -/
def splitOnceSlashes : List Char → Option (List Char × List Char)
  | [] => none
  | [_] => none
  | c1 :: c2 :: rest =>
    if c1 = '/' ∧ c2 = '/' then some ([], rest)
    else
      match splitOnceSlashes (c2 :: rest) with
      | some (l, r) => some (c1 :: l, r)
      | none => none

/-- The part of a line before `//`, the whole line when there is no `//`
(the comment-stripping idiom shared by all three tools). -/
def stripLineComment (cs : List Char) : List Char :=
  match splitOnceSlashes cs with
  | some (l, _) => l
  | none => cs

/-- `str::split_whitespace`, with an accumulator for the current word. -/
def wordsAux : List Char → List Char → List (List Char)
  | [], acc => if acc = [] then [] else [acc.reverse]
  | c :: rest, acc =>
    if c.isWhitespace then
      if acc = [] then wordsAux rest []
      else acc.reverse :: wordsAux rest []
    else wordsAux rest (c :: acc)

/-- `str::split_whitespace` as a list of words. -/
def words (cs : List Char) : List (List Char) := wordsAux cs []

/-- `str::strip_suffix`. -/
def stripSuffixChars (suf cs : List Char) : Option (List Char) :=
  if suf.isSuffixOf cs then some (cs.take (cs.length - suf.length)) else none

/-- `Path::file_name`: the component after the last `/`. -/
def lastComponent (cs : List Char) : List Char :=
  (cs.reverse.takeWhile (· ≠ '/')).reverse

/-- `char::to_uppercase` for the ASCII range (`str::to_uppercase`). -/
def upChars (cs : List Char) : List Char := cs.map Char.toUpper

end Rust

namespace VMT

/-- `parser::Segment` (projects/07/vmtranslator/src/parser.rs). -/
inductive Segment
  | argument | lcl | staticSeg | this | that | constant | pointer | temp
deriving DecidableEq, Repr

/-- `parser::Operator`. -/
inductive Operator
  | add | sub | neg | eq | gt | lt | and | or | not
deriving DecidableEq, Repr

/-- `parser::Command`.  Indices are Rust `i16` values. -/
inductive Command
  | arithmetic (op : Operator)
  | push (seg : Segment) (value : Int)
  | pop (seg : Segment) (value : Int)
  | label (l : String)
  | goto (l : String)
  | ifGoto (l : String)
  | function (name : String) (nVars : Int)
  | call (name : String) (nArgs : Int)
  | ret
deriving DecidableEq, Repr

/-- `subcommand_to_segment`. -/
def subcommandToSegment (w : List Char) : Option Segment :=
  if w = "argument".data then some Segment.argument
  else if w = "local".data then some Segment.lcl
  else if w = "static".data then some Segment.staticSeg
  else if w = "this".data then some Segment.this
  else if w = "that".data then some Segment.that
  else if w = "constant".data then some Segment.constant
  else if w = "pointer".data then some Segment.pointer
  else if w = "temp".data then some Segment.temp
  else none

/-- `line_to_command`: strip a `//` comment, trim, split on whitespace and
match the command word. -/
def lineToCommand (line : String) : Option Command :=
  match Rust.words (Rust.trimChars (Rust.stripLineComment line.data)) with
  | w :: rest =>
    if w = "add".data then some (Command.arithmetic Operator.add)
    else if w = "sub".data then some (Command.arithmetic Operator.sub)
    else if w = "neg".data then some (Command.arithmetic Operator.neg)
    else if w = "eq".data then some (Command.arithmetic Operator.eq)
    else if w = "gt".data then some (Command.arithmetic Operator.gt)
    else if w = "lt".data then some (Command.arithmetic Operator.lt)
    else if w = "and".data then some (Command.arithmetic Operator.and)
    else if w = "or".data then some (Command.arithmetic Operator.or)
    else if w = "not".data then some (Command.arithmetic Operator.not)
    else if w = "push".data then
      match rest with
      | sub :: idx :: _ => do
        let seg ← subcommandToSegment sub
        let i ← Rust.parseI16? idx
        pure (Command.push seg i)
      | _ => none
    else if w = "pop".data then
      match rest with
      | sub :: idx :: _ => do
        let seg ← subcommandToSegment sub
        let i ← Rust.parseI16? idx
        pure (Command.pop seg i)
      | _ => none
    else if w = "label".data then
      match rest with
      | l :: _ => some (Command.label ⟨l⟩)
      | _ => none
    else if w = "goto".data then
      match rest with
      | l :: _ => some (Command.goto ⟨l⟩)
      | _ => none
    else if w = "if-goto".data then
      match rest with
      | l :: _ => some (Command.ifGoto ⟨l⟩)
      | _ => none
    else if w = "function".data then
      match rest with
      | nm :: nv :: _ => do
        let n ← Rust.parseI16? nv
        pure (Command.function ⟨nm⟩ n)
      | _ => none
    else if w = "call".data then
      match rest with
      | nm :: nv :: _ => do
        let n ← Rust.parseI16? nv
        pure (Command.call ⟨nm⟩ n)
      | _ => none
    else if w = "return".data then some Command.ret
    else none
  | [] => none

/-- `Display for Command` (used for the `// …` comment line in the output). -/
def displayCommand : Command → String
  | Command.arithmetic Operator.add => "add"
  | Command.arithmetic Operator.sub => "sub"
  | Command.arithmetic Operator.neg => "neg"
  | Command.arithmetic Operator.eq => "eq"
  | Command.arithmetic Operator.gt => "gt"
  | Command.arithmetic Operator.lt => "lt"
  | Command.arithmetic Operator.and => "and"
  | Command.arithmetic Operator.or => "or"
  | Command.arithmetic Operator.not => "not"
  | Command.push seg v => "push " ++ segmentName seg ++ " " ++ Rust.intToString v
  | Command.pop seg v => "pop " ++ segmentName seg ++ " " ++ Rust.intToString v
  | Command.label l => "label " ++ l
  | Command.goto l => "goto " ++ l
  | Command.ifGoto l => "if-goto " ++ l
  | Command.function nm n => "function " ++ nm ++ " " ++ Rust.intToString n
  | Command.call nm n => "call " ++ nm ++ " " ++ Rust.intToString n
  | Command.ret => "return"
where
  /-- lowercased `Debug` name of a segment. -/
  segmentName : Segment → String
    | Segment.argument => "argument"
    | Segment.lcl => "local"
    | Segment.staticSeg => "static"
    | Segment.this => "this"
    | Segment.that => "that"
    | Segment.constant => "constant"
    | Segment.pointer => "pointer"
    | Segment.temp => "temp"

/-- `platform::hack::Hack` — the per-file translator state. -/
structure Hack where
  staticIdentifier : String
  labelPref : String
  counter : Nat
  funcCounter : Nat
deriving DecidableEq, Repr

/-- `Hack::new` — file stem and `<STEM>_LABEL` prefix; `None` models the
`unwrap` panic when the name does not end in `.vm`. -/
def Hack.new (filename : String) : Option Hack := do
  let stem ← Rust.stripSuffixChars ".vm".data (Rust.lastComponent filename.data)
  pure { staticIdentifier := ⟨stem⟩
         labelPref := ⟨Rust.upChars stem⟩ ++ "_LABEL"
         counter := 0
         funcCounter := 0 }

/-- The `STACK_POP` template, by line. -/
def stackPop : List String := ["@SP", "AM=M-1", "D=M"]

/-- The `STACK_PUSH` template, by line. -/
def stackPush : List String := ["@SP", "A=M", "M=D", "@SP", "M=M+1"]

/-- `push_contant` (sic). -/
def pushConstant (value : Int) : List String :=
  ["@" ++ Rust.intToString value, "D=A"] ++ stackPush

/-- `push_segment` via `load_segment`. -/
def pushSegment (base : String) (index : Int) : List String :=
  ["@" ++ base, "D=M", "@" ++ Rust.intToString index, "A=D+A", "D=M"] ++ stackPush

/-- `push_temp` via `load_temp`. -/
def pushTemp (index : Int) : List String :=
  ["@5", "D=A", "@" ++ Rust.intToString index, "A=D+A", "D=M"] ++ stackPush

/-- `push_static` via `load_static`. -/
def pushStatic (varName : String) : List String :=
  ["@" ++ varName, "D=M"] ++ stackPush

/-- `push_pointer` via `load_pointer`; indices other than 0 and 1 panic. -/
def pushPointer (value : Int) : Except Unit (List String) :=
  if value = 0 then Except.ok (["@THIS", "D=M"] ++ stackPush)
  else if value = 1 then Except.ok (["@THAT", "D=M"] ++ stackPush)
  else Except.error ()

/-- `pop_pointer`; indices other than 0 and 1 panic. -/
def popPointer (value : Int) : Except Unit (List String) :=
  if value = 0 then Except.ok (stackPop ++ ["@THIS", "M=D"])
  else if value = 1 then Except.ok (stackPop ++ ["@THAT", "M=D"])
  else Except.error ()

/-- `pop_temp` via `locate_temp`. -/
def popTemp (index : Int) : List String :=
  ["@5", "D=A", "@" ++ Rust.intToString index, "D=D+A", "@R13", "M=D"] ++
    stackPop ++ ["@R13", "A=M", "M=D"]

/-- `pop_segment` via `locate_segment`. -/
def popSegment (base : String) (index : Int) : List String :=
  ["@" ++ base, "D=M", "@" ++ Rust.intToString index, "D=D+A", "@R13", "M=D"] ++
    stackPop ++ ["@R13", "A=M", "M=D"]

/-- `pop_static` via `assign_variable`. -/
def popStatic (varName : String) : List String :=
  stackPop ++ ["@" ++ varName, "M=D"]

/-- `comp_x_and_y`. -/
def compXY (expression : String) : List String :=
  ["@SP", "A=M-1", "D=M", "A=A-1", "D=" ++ expression,
   "@SP", "A=M-1", "A=A-1", "M=D", "@SP", "M=M-1"]

/-- `comp_y`. -/
def compY (expression : String) : List String :=
  ["@SP", "A=M-1", "D=" ++ expression, "@SP", "A=M-1", "M=D"]

/-- The label minted by `comp_logic` for a given counter value. -/
def compLabel (labelPref : String) (counter : Nat) : String :=
  labelPref ++ "_" ++ Rust.natToString counter

/-- `comp_logic`: compare the two topmost stack cells with a conditional
jump, leaving `-1` (true) or `0` (false). -/
def compLogic (counter : Nat) (labelPref : String) (jump : String) : List String :=
  ["@SP", "M=M-1", "A=M", "D=M", "A=A-1", "D=M-D",
   "@" ++ compLabel labelPref counter, "D;" ++ jump,
   "@SP", "A=M-1", "M=0",
   "@" ++ compLabel labelPref counter ++ "_END", "0;JMP",
   "(" ++ compLabel labelPref counter ++ ")",
   "@SP", "A=M-1", "M=-1",
   "(" ++ compLabel labelPref counter ++ "_END)"]

/-- `translate_call`. -/
def translateCall (returnLabel funcLabel : String) (nArgs : Int) : List String :=
  ["@" ++ returnLabel, "D=A", "@SP", "A=M", "M=D", "@SP", "M=M+1",
   "@LCL", "D=M", "@SP", "A=M", "M=D", "@SP", "M=M+1",
   "@ARG", "D=M", "@SP", "A=M", "M=D", "@SP", "M=M+1",
   "@THIS", "D=M", "@SP", "A=M", "M=D", "@SP", "M=M+1",
   "@THAT", "D=M", "@SP", "A=M", "M=D", "@SP", "M=M+1",
   "@SP", "D=M", "@5", "D=D-A", "@" ++ Rust.intToString nArgs, "D=D-A",
   "@ARG", "M=D", "@SP", "D=M", "@LCL", "M=D",
   "@" ++ funcLabel, "0;JMP", "(" ++ returnLabel ++ ")"]

/-- `translate_function`: a label then `n_vars` zero-pushes. -/
def translateFunction (funcLabel : String) (nVars : Int) : List String :=
  ("(" ++ funcLabel ++ ")") ::
    (List.range nVars.toNat).flatMap (fun _ => ["@SP", "A=M", "M=0", "@SP", "M=M+1"])

/-- `translate_return`. -/
def translateReturn : List String :=
  ["@LCL", "D=M", "@endframe", "M=D",
   "@5", "A=D-A", "D=M", "@retaddr", "M=D",
   "@SP", "AM=M-1", "D=M", "@ARG", "A=M", "M=D",
   "@ARG", "D=M+1", "@SP", "M=D",
   "@endframe", "AM=M-1", "D=M", "@THAT", "M=D",
   "@endframe", "AM=M-1", "D=M", "@THIS", "M=D",
   "@endframe", "AM=M-1", "D=M", "@ARG", "M=D",
   "@endframe", "AM=M-1", "D=M", "@LCL", "M=D",
   "@retaddr", "A=M", "0;JMP"]

/-- `Hack::bootstrap` — defined in the source but never called by `run`. -/
def bootstrap : List String :=
  ["@256", "D=A", "@SP", "M=D"] ++ translateCall "Sys$ret" "Sys.init" 0

/-- `Hack::end`. -/
def endBlock : List String := ["(END)", "@END", "0;JMP"]

/-- `Hack::translate`: `ok none` is Rust's `None` (the command is dropped),
`error ()` is a panic inside the pointer helpers. -/
def translate (s : Hack) (c : Command) : Except Unit (Option (List String) × Hack) :=
  match c with
  | Command.push seg value =>
    match seg with
    | Segment.constant => Except.ok (some (pushConstant value), s)
    | Segment.lcl => Except.ok (some (pushSegment "LCL" value), s)
    | Segment.argument => Except.ok (some (pushSegment "ARG" value), s)
    | Segment.this => Except.ok (some (pushSegment "THIS" value), s)
    | Segment.that => Except.ok (some (pushSegment "THAT" value), s)
    | Segment.staticSeg =>
      Except.ok (some (pushStatic (s.staticIdentifier ++ "." ++ Rust.intToString value)), s)
    | Segment.temp => Except.ok (some (pushTemp value), s)
    | Segment.pointer => do
      let lines ← pushPointer value
      pure (some lines, s)
  | Command.pop seg value =>
    match seg with
    | Segment.lcl => Except.ok (some (popSegment "LCL" value), s)
    | Segment.argument => Except.ok (some (popSegment "ARG" value), s)
    | Segment.this => Except.ok (some (popSegment "THIS" value), s)
    | Segment.that => Except.ok (some (popSegment "THAT" value), s)
    | Segment.staticSeg =>
      Except.ok (some (popStatic (s.staticIdentifier ++ "." ++ Rust.intToString value)), s)
    | Segment.temp => Except.ok (some (popTemp value), s)
    | Segment.pointer => do
      let lines ← popPointer value
      pure (some lines, s)
    | Segment.constant => Except.ok (none, s)
  | Command.arithmetic op =>
    match op with
    | Operator.add => Except.ok (some (compXY "M+D"), s)
    | Operator.sub => Except.ok (some (compXY "M-D"), s)
    | Operator.and => Except.ok (some (compXY "D&M"), s)
    | Operator.or => Except.ok (some (compXY "D|M"), s)
    | Operator.neg => Except.ok (some (compY "-M"), s)
    | Operator.not => Except.ok (some (compY "!M"), s)
    | Operator.eq =>
      Except.ok (some (compLogic s.counter s.labelPref "JEQ"), { s with counter := s.counter + 1 })
    | Operator.lt =>
      Except.ok (some (compLogic s.counter s.labelPref "JLT"), { s with counter := s.counter + 1 })
    | Operator.gt =>
      Except.ok (some (compLogic s.counter s.labelPref "JGT"), { s with counter := s.counter + 1 })
  | Command.label l => Except.ok (some ["(" ++ l ++ ")"], s)
  | Command.goto l => Except.ok (some ["@" ++ l, "0;JMP"], s)
  | Command.ifGoto l =>
    Except.ok (some ["@SP", "A=M-1", "D=M", "@SP", "M=M-1", "@" ++ l, "D;JNE"], s)
  | Command.call name nArgs =>
    let returnLabel := s.staticIdentifier ++ "$ret." ++ Rust.natToString s.funcCounter
    Except.ok (some (translateCall returnLabel name nArgs),
      { s with funcCounter := s.funcCounter + 1 })
  | Command.function name nVars => Except.ok (some (translateFunction name nVars), s)
  | Command.ret => Except.ok (some translateReturn, s)

/-- Translate a list of commands, threading the `Hack` state. -/
def translateList (s : Hack) (cs : List Command) :
    Except Unit (List (Option (List String)) × Hack) :=
  match cs with
  | [] => Except.ok ([], s)
  | c :: rest => do
    let (out, s1) ← translate s c
    let (outs, s2) ← translateList s1 rest
    pure (out :: outs, s2)

/-- `handle_file`: parse each line, translate, and emit a `// command` comment
line followed by the assembly for every command the translator keeps. -/
def handleFile (filename : String) (content : List String) : Except Unit (List String) := do
  let cmds := content.filterMap lineToCommand
  match Hack.new filename with
  | none => Except.error ()
  | some h0 => emit h0 cmds
where
  /-- the translation loop of `handle_file`. -/
  emit (s : Hack) : List Command → Except Unit (List String)
    | [] => Except.ok []
    | c :: rest => do
      let (out, s1) ← translate s c
      let tail ← emit s1 rest
      match out with
      | some lines => pure (("// " ++ displayCommand c) :: lines ++ tail)
      | none => pure tail

/-- The translator's input: a single `.vm` file or a directory of entries. -/
inductive Source
  | file (filename : String) (content : List String)
  | directory (entries : List (String × List String))

/-- `run`: translate the source and append the `// Program end` marker and the
`END` loop.  In the directory case an entry is handled only when Rust's
`Path::ends_with(".vm")` holds, which compares whole path components, so it
requires the file name to be exactly `.vm`.  No bootstrap is emitted. -/
def run (source : Source) : Except Unit (List String) := do
  let body ←
    match source with
    | Source.file filename content => handleFile filename content
    | Source.directory entries => runDir entries
  pure (body ++ ["// Program end"] ++ endBlock)
where
  /-- the directory loop of `run`. -/
  runDir : List (String × List String) → Except Unit (List String)
    | [] => Except.ok []
    | (name, content) :: rest => do
      let here ← if name = ".vm" then handleFile name content else pure []
      let there ← runDir rest
      pure (here ++ there)

end VMT

namespace Asm

/-- `parser::Instruction` (projects/06/assembler/src/parser.rs). -/
inductive Instruction
  | A (symbol : String)
  | L (symbol : String)
  | C (dest : Option String) (comp : String) (jump : Option String)
deriving DecidableEq, Repr

/-- `line_to_instruction`: strip a `//` comment, trim, and classify the line
as an `@`-instruction, a `(label)`, or a C-instruction split at `=` and `;`. -/
def lineToInstruction (line : String) : Option Instruction :=
  let cs := Rust.stripLineComment line.data
  let cs := Rust.trimChars cs
  if cs = [] then none
  else if "//".data.isPrefixOf cs then none
  else
    match cs with
    | '@' :: symbol => some (Instruction.A ⟨symbol⟩)
    | _ =>
      if cs.head? = some '(' ∧ cs.getLast? = some ')' then
        some (Instruction.L ⟨(cs.drop 1).take (cs.length - 2)⟩)
      else
        match Rust.splitOnceChar '=' cs with
        | some (dest, other) =>
          match Rust.splitOnceChar ';' other with
          | some (comp, jump) =>
            some (Instruction.C (some ⟨dest⟩) ⟨comp⟩ (some ⟨jump⟩))
          | none => some (Instruction.C (some ⟨dest⟩) ⟨other⟩ none)
        | none =>
          match Rust.splitOnceChar ';' cs with
          | some (comp, jump) => some (Instruction.C none ⟨comp⟩ (some ⟨jump⟩))
          | none => some (Instruction.C none ⟨cs⟩ none)

/-- The 7 `comp` bits of a C-instruction (`Instruction::to_decimal`); a panic
for any other mnemonic. -/
def compBits (comp : String) : Except Unit Nat :=
  if comp = "0" then Except.ok 0b0101010
  else if comp = "1" then Except.ok 0b0111111
  else if comp = "-1" then Except.ok 0b0111010
  else if comp = "D" then Except.ok 0b0001100
  else if comp = "A" then Except.ok 0b0110000
  else if comp = "M" then Except.ok 0b1110000
  else if comp = "!D" then Except.ok 0b0001101
  else if comp = "!A" then Except.ok 0b0110001
  else if comp = "!M" then Except.ok 0b1110001
  else if comp = "-D" then Except.ok 0b0001111
  else if comp = "-A" then Except.ok 0b0110011
  else if comp = "-M" then Except.ok 0b1110011
  else if comp = "D+1" ∨ comp = "1+D" then Except.ok 0b0011111
  else if comp = "A+1" ∨ comp = "1+A" then Except.ok 0b0110111
  else if comp = "M+1" ∨ comp = "1+M" then Except.ok 0b1110111
  else if comp = "D-1" then Except.ok 0b0001110
  else if comp = "A-1" then Except.ok 0b0110010
  else if comp = "M-1" then Except.ok 0b1110010
  else if comp = "D+A" ∨ comp = "A+D" then Except.ok 0b0000010
  else if comp = "D+M" ∨ comp = "M+D" then Except.ok 0b1000010
  else if comp = "D-A" then Except.ok 0b0010011
  else if comp = "D-M" then Except.ok 0b1010011
  else if comp = "A-D" then Except.ok 0b0000111
  else if comp = "M-D" then Except.ok 0b1000111
  else if comp = "D&A" ∨ comp = "A&D" then Except.ok 0b0000000
  else if comp = "D&M" ∨ comp = "M&D" then Except.ok 0b1000000
  else if comp = "D|A" ∨ comp = "A|D" then Except.ok 0b0010101
  else if comp = "D|M" ∨ comp = "M|D" then Except.ok 0b1010101
  else Except.error ()

/-- The 3 `dest` bits. -/
def destBits (dest : Option String) : Except Unit Nat :=
  match dest with
  | none => Except.ok 0b000
  | some v =>
    if v = "M" then Except.ok 0b001
    else if v = "D" then Except.ok 0b010
    else if v = "DM" ∨ v = "MD" then Except.ok 0b011
    else if v = "A" then Except.ok 0b100
    else if v = "AM" ∨ v = "MA" then Except.ok 0b101
    else if v = "AD" ∨ v = "DA" then Except.ok 0b110
    else if v = "ADM" ∨ v = "AMD" ∨ v = "DAM" ∨ v = "DMA" ∨ v = "MAD" ∨ v = "MDA" then
      Except.ok 0b111
    else Except.error ()

/-- The 3 `jump` bits. -/
def jumpBits (jump : Option String) : Except Unit Nat :=
  match jump with
  | none => Except.ok 0b000
  | some v =>
    if v = "JGT" then Except.ok 0b001
    else if v = "JEQ" then Except.ok 0b010
    else if v = "JGE" then Except.ok 0b011
    else if v = "JLT" then Except.ok 0b100
    else if v = "JNE" then Except.ok 0b101
    else if v = "JLE" then Except.ok 0b110
    else if v = "JMP" then Except.ok 0b111
    else Except.error ()

/-- Look up a key in the modelled `HashMap` (an association list that is only
ever extended with absent keys, so first match is the map's value). -/
def dictGet (dict : List (String × Int)) (key : String) : Option Int :=
  (dict.find? (fun p => p.1 = key)).map Prod.snd

/-- `HashMap::entry(key).or_insert(value)`. -/
def dictInsertIfAbsent (dict : List (String × Int)) (key : String) (value : Int) :
    List (String × Int) :=
  match dictGet dict key with
  | some _ => dict
  | none => dict ++ [(key, value)]

/-- `Instruction::to_decimal`: `ok none` for a label line, the 16-bit word
(as its unsigned bit pattern) otherwise; `error` models the `unwrap`/`panic!`
for an unknown symbol or mnemonic. -/
def toDecimal (dict : List (String × Int)) : Instruction → Except Unit (Option Nat)
  | Instruction.A symbol =>
    match Rust.parseI16S symbol with
    | some address => Except.ok (some ((address.emod 65536).toNat))
    | none =>
      match dictGet dict symbol with
      | some address => Except.ok (some ((address.emod 65536).toNat))
      | none => Except.error ()
  | Instruction.L _ => Except.ok none
  | Instruction.C dest comp jump => do
    let c ← compBits comp
    let d ← destBits dest
    let j ← jumpBits jump
    Except.ok (some ((0b111 <<< 13) ||| (c <<< 6) ||| (d <<< 3) ||| j))

/-- The predefined symbols inserted by `run` before the passes:
`R0..R15`, then `SCREEN`, `KBD`, `SP`, `LCL`, `ARG`, `THIS`, `THAT`. -/
def predefDict : List (String × Int) :=
  ((List.range 16).map (fun n => ("R" ++ Rust.natToString n, (n : Int)))) ++
    [("SCREEN", 16384), ("KBD", 24576), ("SP", 0), ("LCL", 1),
     ("ARG", 2), ("THIS", 3), ("THAT", 4)]

/-- The label pass of `run`: `(L)` lines bind `L` (if absent) to the running
count of preceding non-label instructions. -/
def labelPass (dict : List (String × Int)) (counter : Int) :
    List Instruction → List (String × Int)
  | [] => dict
  | Instruction.L symbol :: rest => labelPass (dictInsertIfAbsent dict symbol counter) counter rest
  | _ :: rest => labelPass dict (counter + 1) rest

/-- The variable pass of `run`: `@symbol` instructions whose symbol is not an
`i16` numeral get the next free RAM address, starting after `m_address = 15`. -/
def varPass (dict : List (String × Int)) (mAddress : Int) :
    List Instruction → List (String × Int)
  | [] => dict
  | Instruction.A symbol :: rest =>
    if (Rust.parseI16S symbol).isNone then
      match dictGet dict symbol with
      | some _ => varPass dict mAddress rest
      | none => varPass (dict ++ [(symbol, mAddress + 1)]) (mAddress + 1) rest
    else varPass dict mAddress rest
  | _ :: rest => varPass dict mAddress rest

/-- The symbol table after both passes of `run`. -/
def buildDict (instrs : List Instruction) : List (String × Int) :=
  varPass (labelPass predefDict 0 instrs) 15 instrs

/-- The emission loop of `run`. -/
def emitAll (dict : List (String × Int)) : List Instruction → Except Unit (List Nat)
  | [] => Except.ok []
  | i :: rest => do
    let w ← toDecimal dict i
    let tail ← emitAll dict rest
    match w with
    | some word => pure (word :: tail)
    | none => pure tail

/-- `run` of the assembler: parse the lines, build the symbol table in two
passes, and emit one 16-bit word per A- or C-instruction. -/
def assemble (lines : List String) : Except Unit (List Nat) :=
  let instrs := lines.filterMap lineToInstruction
  emitAll (buildDict instrs) instrs

end Asm

namespace Mach

/-! Semantics of the Hack machine, used to state what the assembly emitted by
the VM translator does.  Words are idealized as unbounded `Int` (the claims
under verification concern frame bookkeeping, not 16-bit overflow); the
bitwise operations convert through the 16-bit pattern. -/

/-- The unsigned 16-bit pattern of a word. -/
def toU16 (v : Int) : Nat := (v.emod 65536).toNat

/-- The signed value of an unsigned 16-bit pattern. -/
def ofU16 (n : Nat) : Int := if n < 32768 then (n : Int) else (n : Int) - 65536

/-- ALU computations of the Hack CPU. -/
inductive Comp
  | zero | one | negOne | D | A | M
  | notD | notA | notM | negD | negA | negM
  | Dplus1 | Aplus1 | Mplus1 | Dminus1 | Aminus1 | Mminus1
  | DplusA | DplusM | DminusA | DminusM | AminusD | MminusD
  | DandA | DandM | DorA | DorM
deriving DecidableEq, Repr

/-- Jump conditions of the Hack CPU. -/
inductive Jump
  | JGT | JEQ | JGE | JLT | JNE | JLE | JMP
deriving DecidableEq, Repr

/-- Destination bits of a C-instruction. -/
structure Dest where
  a : Bool
  d : Bool
  m : Bool
deriving DecidableEq, Repr

/-- A decoded Hack instruction (`L` is a label line: no operation). -/
inductive Instr
  | A (v : Int)
  | L
  | C (dest : Dest) (comp : Comp) (jump : Option Jump)
deriving DecidableEq, Repr

/-- Decode a `comp` mnemonic (the mnemonics of the Hack language). -/
def decodeComp (s : String) : Option Comp :=
  if s = "0" then some Comp.zero
  else if s = "1" then some Comp.one
  else if s = "-1" then some Comp.negOne
  else if s = "D" then some Comp.D
  else if s = "A" then some Comp.A
  else if s = "M" then some Comp.M
  else if s = "!D" then some Comp.notD
  else if s = "!A" then some Comp.notA
  else if s = "!M" then some Comp.notM
  else if s = "-D" then some Comp.negD
  else if s = "-A" then some Comp.negA
  else if s = "-M" then some Comp.negM
  else if s = "D+1" ∨ s = "1+D" then some Comp.Dplus1
  else if s = "A+1" ∨ s = "1+A" then some Comp.Aplus1
  else if s = "M+1" ∨ s = "1+M" then some Comp.Mplus1
  else if s = "D-1" then some Comp.Dminus1
  else if s = "A-1" then some Comp.Aminus1
  else if s = "M-1" then some Comp.Mminus1
  else if s = "D+A" ∨ s = "A+D" then some Comp.DplusA
  else if s = "D+M" ∨ s = "M+D" then some Comp.DplusM
  else if s = "D-A" then some Comp.DminusA
  else if s = "D-M" then some Comp.DminusM
  else if s = "A-D" then some Comp.AminusD
  else if s = "M-D" then some Comp.MminusD
  else if s = "D&A" ∨ s = "A&D" then some Comp.DandA
  else if s = "D&M" ∨ s = "M&D" then some Comp.DandM
  else if s = "D|A" ∨ s = "A|D" then some Comp.DorA
  else if s = "D|M" ∨ s = "M|D" then some Comp.DorM
  else none

/-- Decode a `dest` mnemonic. -/
def decodeDest (o : Option String) : Option Dest :=
  match o with
  | none => some ⟨false, false, false⟩
  | some v =>
    if v = "M" then some ⟨false, false, true⟩
    else if v = "D" then some ⟨false, true, false⟩
    else if v = "DM" ∨ v = "MD" then some ⟨false, true, true⟩
    else if v = "A" then some ⟨true, false, false⟩
    else if v = "AM" ∨ v = "MA" then some ⟨true, false, true⟩
    else if v = "AD" ∨ v = "DA" then some ⟨true, true, false⟩
    else if v = "ADM" ∨ v = "AMD" ∨ v = "DAM" ∨ v = "DMA" ∨ v = "MAD" ∨ v = "MDA" then
      some ⟨true, true, true⟩
    else none

/-- Decode a `jump` mnemonic. -/
def decodeJump (o : Option String) : Option (Option Jump) :=
  match o with
  | none => some none
  | some v =>
    if v = "JGT" then some (some Jump.JGT)
    else if v = "JEQ" then some (some Jump.JEQ)
    else if v = "JGE" then some (some Jump.JGE)
    else if v = "JLT" then some (some Jump.JLT)
    else if v = "JNE" then some (some Jump.JNE)
    else if v = "JLE" then some (some Jump.JLE)
    else if v = "JMP" then some (some Jump.JMP)
    else none

/-- Decode a parsed assembly instruction; symbolic `@name` addresses are
resolved through `env` (the address the assembler would assign to `name`). -/
def decodeInstr (env : String → Int) : Asm.Instruction → Option Instr
  | Asm.Instruction.A symbol =>
    match Rust.parseI16S symbol with
    | some v => some (Instr.A v)
    | none => some (Instr.A (env symbol))
  | Asm.Instruction.L _ => some Instr.L
  | Asm.Instruction.C dest comp jump => do
    let d ← decodeDest dest
    let c ← decodeComp comp
    let j ← decodeJump jump
    pure (Instr.C d c j)

/-- Decode an assembly text line. -/
def decodeLine (env : String → Int) (line : String) : Option Instr :=
  (Asm.lineToInstruction line).bind (decodeInstr env)

/-- Decode a program given as a list of assembly lines. -/
def decodeProgram (env : String → Int) (lines : List String) : Option (List Instr) :=
  lines.mapM (decodeLine env)

/-- The machine state: the `A` and `D` registers and the RAM. -/
structure State where
  A : Int
  D : Int
  ram : Int → Int

/-- Pointwise RAM update. -/
def wr (ram : Int → Int) (a v : Int) : Int → Int :=
  fun x => if x = a then v else ram x

/-- Value of an ALU computation given `A`, `D` and `M = RAM[A]`. -/
def evalComp : Comp → Int → Int → Int → Int
  | Comp.zero, _, _, _ => 0
  | Comp.one, _, _, _ => 1
  | Comp.negOne, _, _, _ => -1
  | Comp.D, _, d, _ => d
  | Comp.A, a, _, _ => a
  | Comp.M, _, _, m => m
  | Comp.notD, _, d, _ => ofU16 (65535 - toU16 d)
  | Comp.notA, a, _, _ => ofU16 (65535 - toU16 a)
  | Comp.notM, _, _, m => ofU16 (65535 - toU16 m)
  | Comp.negD, _, d, _ => -d
  | Comp.negA, a, _, _ => -a
  | Comp.negM, _, _, m => -m
  | Comp.Dplus1, _, d, _ => d + 1
  | Comp.Aplus1, a, _, _ => a + 1
  | Comp.Mplus1, _, _, m => m + 1
  | Comp.Dminus1, _, d, _ => d - 1
  | Comp.Aminus1, a, _, _ => a - 1
  | Comp.Mminus1, _, _, m => m - 1
  | Comp.DplusA, a, d, _ => d + a
  | Comp.DplusM, _, d, m => d + m
  | Comp.DminusA, a, d, _ => d - a
  | Comp.DminusM, _, d, m => d - m
  | Comp.AminusD, a, d, _ => a - d
  | Comp.MminusD, _, d, m => m - d
  | Comp.DandA, a, d, _ => ofU16 (Nat.land (toU16 d) (toU16 a))
  | Comp.DandM, _, d, m => ofU16 (Nat.land (toU16 d) (toU16 m))
  | Comp.DorA, a, d, _ => ofU16 (Nat.lor (toU16 d) (toU16 a))
  | Comp.DorM, _, d, m => ofU16 (Nat.lor (toU16 d) (toU16 m))

/-- Whether a jump condition holds for the ALU output. -/
def condHolds : Jump → Int → Bool
  | Jump.JGT, v => 0 < v
  | Jump.JEQ, v => v = 0
  | Jump.JGE, v => 0 ≤ v
  | Jump.JLT, v => v < 0
  | Jump.JNE, v => v ≠ 0
  | Jump.JLE, v => v ≤ 0
  | Jump.JMP, _ => true

/-- One instruction step.  `M` is addressed by the value `A` had before the
instruction (the register latches at the end of the cycle); a taken jump
reports the pre-instruction `A` as the target. -/
def execInstr (i : Instr) (s : State) : State × Option Int :=
  match i with
  | Instr.A v => ({ s with A := v }, none)
  | Instr.L => (s, none)
  | Instr.C dest comp jump =>
    let value := evalComp comp s.A s.D (s.ram s.A)
    let s' : State :=
      { A := if dest.a then value else s.A
        D := if dest.d then value else s.D
        ram := if dest.m then wr s.ram s.A value else s.ram }
    match jump with
    | some j => if condHolds j value then (s', some s.A) else (s', none)
    | none => (s', none)

/-- Run a straight-line block: stop at the first taken jump (reporting its
target) or at the end of the block. -/
def runInstrs : List Instr → State → State × Option Int
  | [], s => (s, none)
  | i :: rest, s =>
    match execInstr i s with
    | (s', some t) => (s', some t)
    | (s', none) => runInstrs rest s'

/-- Run a block that may jump to its own labels: `pc`-driven, fuel-bounded
execution; a jump moves `pc` to the target index.  `none` when fuel runs out. -/
def pcRun (prog : List Instr) : Nat → Nat → State → Option State
  | 0, _, _ => none
  | fuel + 1, pc, s =>
    match prog.get? pc with
    | none => some s
    | some i =>
      match execInstr i s with
      | (s', some t) => pcRun prog fuel t.toNat s'
      | (s', none) => pcRun prog fuel (pc + 1) s'

/-- Decode an assembly text block and run it straight-line from a state:
`some (final state, taken jump target)` when every line decodes. -/
def runProg (env : String → Int) (lines : List String) (st : State) :
    Option (State × Option Int) :=
  (decodeProgram env lines).map (fun instrs => runInstrs instrs st)

/-- Decode an assembly text block and run it with `pc`-driven semantics
(jumps may target the block's own labels via `env`). -/
def pcRunProg (env : String → Int) (lines : List String) (fuel : Nat) (st : State) :
    Option State :=
  (decodeProgram env lines).bind (fun instrs => pcRun instrs fuel 0 st)

/-- A concrete symbol environment with the standard Hack bindings
(SP=0, LCL=1, ARG=2, THIS=3, THAT=4) and the translator's two scratch
variables placed at RAM 16 and 17, as the assembler would place them. -/
def envStd : String → Int := fun s =>
  if s = "SP" then 0
  else if s = "LCL" then 1
  else if s = "ARG" then 2
  else if s = "THIS" then 3
  else if s = "THAT" then 4
  else if s = "endframe" then 16
  else if s = "retaddr" then 17
  else 18

/-- A concrete symbol environment for a comparison block: SP=0 and the
labels `FOO_0` / `FOO_0_END` at instruction indices 13 and 17. -/
def envCmp : String → Int := fun s =>
  if s = "SP" then 0
  else if s = "FOO_0" then 13
  else if s = "FOO_0_END" then 17
  else 1

/-- A concrete machine state inside a function call: SP=305, LCL=300,
ARG=290, all other cells hold twice their address. -/
def stRet : State :=
  { A := 0, D := 0,
    ram := fun x => if x = 0 then 305 else if x = 1 then 300
           else if x = 2 then 290 else 2 * x }

end Mach

namespace Jack

/-- `tokenizer::Token` (projects/10/jack_analyzer/src/tokenizer.rs). -/
inductive Token
  | keyword (s : String)
  | symbol (c : Char)
  | identifier (s : String)
  | int (v : Int)
  | string (s : String)
deriving DecidableEq, Repr

/-- The `KEYWORDS` table. -/
def keywords : List String :=
  ["class", "method", "function", "constructor", "int", "boolean", "char",
   "void", "var", "static", "field", "let", "do", "if", "else", "return",
   "true", "false", "null", "this", "while"]

/-- The `SYMBOLS` table. -/
def symbols : List Char :=
  ['{', '}', '(', ')', '[', ']', '.', ',', ';', '+', '-', '*', '/',
   '&', '|', '<', '>', '=', '~']

/-- `Line::token`: classify the accumulated slice.  Rust's `char::is_numeric`
is modelled on its ASCII fragment (`Char.isDigit`); the sources only meet
ASCII digits.  The `error` models the `parse::<i16>().unwrap()` panic on an
out-of-range integer literal. -/
def mkToken (slice : List Char) (isStr : Bool) : Except Unit Token :=
  if isStr then Except.ok (Token.string ⟨slice⟩)
  else if keywords.contains ⟨slice⟩ then Except.ok (Token.keyword ⟨slice⟩)
  else if slice.all Char.isDigit then
    match Rust.parseI16? slice with
    | some v => Except.ok (Token.int v)
    | none => Except.error ()
  else Except.ok (Token.identifier ⟨slice⟩)

/-- The `Iterator for Line` loop: scan the characters of one (already
comment-stripped) line, accumulating the current slice and emitting tokens.
`isStr` is `current_is_string`. -/
def lineTokens : List Char → List Char → Bool → Except Unit (List Token)
  | [], slice, isStr =>
    if slice = [] then Except.ok []
    else do
      let t ← mkToken slice isStr
      pure [t]
  | c :: rest, slice, isStr =>
    if c = ' ' then
      if isStr then lineTokens rest (slice ++ [' ']) true
      else if slice ≠ [] then do
        let t ← mkToken slice isStr
        let ts ← lineTokens rest [] false
        pure (t :: ts)
      else lineTokens rest [] false
    else if c = '"' then
      if slice = [] then lineTokens rest [] true
      else do
        let t ← mkToken slice isStr
        let ts ← lineTokens rest [] false
        pure (t :: ts)
    else if symbols.contains c then
      if isStr then lineTokens rest (slice ++ [c]) true
      else if slice ≠ [] then do
        let t ← mkToken slice isStr
        let ts ← lineTokens rest [] false
        pure (t :: Token.symbol c :: ts)
      else do
        let ts ← lineTokens rest [] false
        pure (Token.symbol c :: ts)
    else lineTokens rest (slice ++ [c]) isStr

/-- The `Iterator for Tokenizer` loop over the input lines; the `Bool` is the
`is_comment` flag.  Each line is trimmed; `/** … */` one-liners are skipped,
`/**` opens and a line starting `*/` closes a block comment, and a `//`
comment is cut off before the line is scanned. -/
def tokenizeAux : Bool → List String → Except Unit (List Token)
  | _, [] => Except.ok []
  | isComment, line :: rest =>
    let t := Rust.trimChars line.data
    if "/** ".data.isPrefixOf t ∧ " */".data.isSuffixOf t then tokenizeAux isComment rest
    else if "/**".data.isPrefixOf t then tokenizeAux true rest
    else if "*/".data.isPrefixOf t then tokenizeAux false rest
    else if isComment then tokenizeAux isComment rest
    else do
      let toks ← lineTokens (Rust.stripLineComment t) [] false
      let ts ← tokenizeAux isComment rest
      pure (toks ++ ts)

/-- `Tokenizer` over a file given as its list of lines. -/
def tokenize (lines : List String) : Except Unit (List Token) :=
  tokenizeAux false lines

/-- `parser::Type` (utils.rs imports it from parser.rs). -/
inductive JType
  | int
  | char
  | boolean
  | className (name : String)
deriving DecidableEq, Repr

/-- `utils::SymbolKind`. -/
inductive SymbolKind
  | field
  | staticK
  | localK
  | argument
deriving DecidableEq, Repr

/-- `utils::Symbol`. -/
structure Symbol where
  varName : String
  varType : JType
  kind : SymbolKind
  index : Int
deriving DecidableEq, Repr

/-- `Symbol::vm_memory_segment`. -/
def Symbol.vmMemorySegment (s : Symbol) : String :=
  match s.kind with
  | SymbolKind.field => "this"
  | SymbolKind.argument => "argument"
  | SymbolKind.localK => "local"
  | SymbolKind.staticK => "static"

/-- `Symbol::class_name` (panics unless the type is a class name). -/
def Symbol.className (s : Symbol) : Except Unit String :=
  match s.varType with
  | JType.className v => Except.ok v
  | _ => Except.error ()

/-- `utils::Counter`. -/
structure Counter where
  fieldIndex : Int
  staticIndex : Int
  localIndex : Int
  argumentIndex : Int
deriving DecidableEq, Repr

/-- `Counter::new`. -/
def Counter.new : Counter := ⟨0, 0, 0, 0⟩

/-- `Counter::index_by_kind`. -/
def Counter.indexByKind (c : Counter) : SymbolKind → Int
  | SymbolKind.argument => c.argumentIndex
  | SymbolKind.localK => c.localIndex
  | SymbolKind.staticK => c.staticIndex
  | SymbolKind.field => c.fieldIndex

/-- `Counter::increment_by_kind`. -/
def Counter.incrementByKind (c : Counter) : SymbolKind → Counter
  | SymbolKind.argument => { c with argumentIndex := c.argumentIndex + 1 }
  | SymbolKind.localK => { c with localIndex := c.localIndex + 1 }
  | SymbolKind.staticK => { c with staticIndex := c.staticIndex + 1 }
  | SymbolKind.field => { c with fieldIndex := c.fieldIndex + 1 }

/-- `utils::SymbolTable`. -/
structure SymbolTable where
  counter : Counter
  symbols : List Symbol
deriving DecidableEq, Repr

/-- `SymbolTable::new`. -/
def SymbolTable.new : SymbolTable := ⟨Counter.new, []⟩

/-- `SymbolTable::find_by`. -/
def SymbolTable.findBy (t : SymbolTable) (name : String) : Option Symbol :=
  t.symbols.find? (fun s => s.varName = name)

/-- `SymbolTable::field_vars_count`. -/
def SymbolTable.fieldVarsCount (t : SymbolTable) : Int :=
  ((t.symbols.filter (fun s => s.kind = SymbolKind.field)).length : Int)

/-- `SymbolTable::push`. -/
def SymbolTable.push (t : SymbolTable) (varName : String) (varType : JType)
    (kind : SymbolKind) : SymbolTable :=
  { counter := t.counter.incrementByKind kind
    symbols := t.symbols ++ [{ varName := varName, varType := varType, kind := kind,
                               index := t.counter.indexByKind kind }] }

/-- The insert sequence of `CharSet::new`, in source order.  Note the second
`('/', 92)` insert where the source presumably intended `('\\', 92)`. -/
def charSetInserts : List (Char × Int) :=
  [(' ', 32), ('!', 33), ('"', 34), ('#', 35), ('$', 36), ('%', 37), ('&', 38),
   ('\'', 39), ('(', 40), (')', 41), ('*', 42), ('+', 43), (',', 44), ('-', 45),
   ('.', 46), ('/', 47), ('0', 48), ('1', 49), ('2', 50), ('3', 51), ('4', 52),
   ('5', 53), ('6', 54), ('7', 55), ('8', 56), ('9', 57), (':', 58), (';', 59),
   ('<', 60), ('=', 61), ('>', 62), ('?', 63), ('@', 64), ('A', 65), ('B', 66),
   ('C', 67), ('D', 68), ('E', 69), ('F', 70), ('G', 71), ('H', 72), ('I', 73),
   ('J', 74), ('K', 75), ('L', 76), ('M', 77), ('N', 78), ('O', 79), ('P', 80),
   ('Q', 81), ('R', 82), ('S', 83), ('T', 84), ('U', 85), ('V', 86), ('W', 87),
   ('X', 88), ('Y', 89), ('Z', 90), ('[', 91), ('/', 92), (']', 93), ('^', 94),
   ('_', 95), ('`', 96), ('a', 97), ('b', 98), ('c', 99), ('d', 100), ('e', 101),
   ('f', 102), ('g', 103), ('h', 104), ('i', 105), ('j', 106), ('k', 107),
   ('l', 108), ('m', 109), ('n', 110), ('o', 111), ('p', 112), ('q', 113),
   ('r', 114), ('s', 115), ('t', 116), ('u', 117), ('v', 118), ('w', 119),
   ('x', 120), ('y', 121), ('z', 122), ('{', 123), ('|', 124), ('}', 125),
   ('~', 126), ('\x7F', 127), ('\n', 128), ('\x08', 129),
   ('←', 130), ('↑', 131), ('→', 132), ('↓', 133)]

/-- `CharSet::decode`: `HashMap` lookup where a later insert overwrites an
earlier one; a missing key is the `unwrap` panic. -/
def charSetDecode (c : Char) : Except Unit Int :=
  match charSetInserts.reverse.find? (fun p => p.1 = c) with
  | some p => Except.ok p.2
  | none => Except.error ()

/-- `utils::LabelGenerator::generate` for a given counter value. -/
def generatedLabel (className : String) (counter : Nat) : String :=
  ⟨Rust.upChars className.data⟩ ++ "_" ++ Rust.natToString counter

/-- Rust `as i16` for a `usize` (`content.len() as i16`). -/
def asI16 (n : Nat) : Int := ((n : Int) + 32768) % 65536 - 32768

/-- `VM::push` (one line of VM code). -/
def vmPush (segment : String) (value : Int) : String :=
  "push " ++ segment ++ " " ++ Rust.intToString value

/-- `VM::pop`. -/
def vmPop (segment : String) (index : Int) : String :=
  "pop " ++ segment ++ " " ++ Rust.intToString index

/-- `VM::op`. -/
def vmOp (name : String) : String := name

/-- `VM::call`. -/
def vmCall (functionName : String) (nArgs : Int) : String :=
  "call " ++ functionName ++ " " ++ Rust.intToString nArgs

/-- `VM::label`. -/
def vmLabel (l : String) : String := "label " ++ l

/-- `VM::goto`. -/
def vmGoto (l : String) : String := "goto " ++ l

/-- `VM::ifgoto`. -/
def vmIfGoto (l : String) : String := "if-goto " ++ l

/-- `VM::function`. -/
def vmFunction (name : String) (nVars : Int) : String :=
  "function " ++ name ++ " " ++ Rust.intToString nVars

/-- The per-character body of `VM::compile_string`. -/
def compileStringChars : List Char → Except Unit (List String)
  | [] => Except.ok []
  | c :: rest => do
    let n ← charSetDecode c
    let tail ← compileStringChars rest
    pure (vmPush "constant" n :: vmCall "String.appendChar" 2 :: tail)

/-- `VM::compile_string`: push the byte length, `call String.new 1`, then
append each character. -/
def compileString (content : String) : Except Unit (List String) := do
  let pushChars ← compileStringChars content.data
  pure ([vmPush "constant" (asI16 content.utf8ByteSize),
         vmCall "String.new" 1] ++ pushChars)

end Jack

namespace Jack

/-- `parser::Op`. -/
inductive Op
  | plus | minus | multiply | divide | and | or | lt | gt | eq
deriving DecidableEq, Repr

/-- `parser::UnaryOp`. -/
inductive UnaryOp
  | negative | not
deriving DecidableEq, Repr

/-- `parser::KeywordConstant`. -/
inductive KeywordConstant
  | null | false | true | this
deriving DecidableEq, Repr

mutual

/-- `parser::Term`. -/
inductive Term
  | integerConstant (v : Int)
  | stringConstant (v : String)
  | keywordConstant (v : KeywordConstant)
  | varName (v : String)
  | indexVar (v : String) (e : Expression)
  | call (c : SubroutineCall)
  | expression (e : Expression)
  | withUnary (op : UnaryOp) (t : Term)

/-- `parser::Expression` — a term followed by `(op, term)` pairs. -/
inductive Expression
  | mk (term : Term) (extraOpTerms : OpTerms)

/-- The `Vec<OpTerm>` of an expression. -/
inductive OpTerms
  | nil
  | cons (op : Op) (t : Term) (rest : OpTerms)

/-- `parser::SubroutineCall`. -/
inductive SubroutineCall
  | mk (caller : Option String) (subroutineName : String) (args : ExpressionList)

/-- The `Vec<Expression>` of a call's argument list. -/
inductive ExpressionList
  | nil
  | cons (e : Expression) (rest : ExpressionList)

end

/-- Length of an argument list (`expression_list.len()`). -/
def ExpressionList.length : ExpressionList → Nat
  | ExpressionList.nil => 0
  | ExpressionList.cons _ rest => 1 + rest.length

mutual

/-- `parser::Statement`; `If` with and without an `else` block are separate
constructors (Rust uses `Option<Statements>`). -/
inductive Statement
  | letStmt (varName : String) (indexExpression : Option Expression) (expression : Expression)
  | ifStmt (expression : Expression) (ifStatements : Statements)
  | ifElseStmt (expression : Expression) (ifStatements : Statements) (elseStatements : Statements)
  | whileStmt (expression : Expression) (statements : Statements)
  | doStmt (c : SubroutineCall)
  | returnStmt (e : Option Expression)

/-- `parser::Statements`. -/
inductive Statements
  | nil
  | cons (s : Statement) (rest : Statements)

end

/-- `parser::SubroutineType`. -/
inductive SubroutineType
  | constructor | function | method
deriving DecidableEq, Repr

/-- `parser::SubroutineReturnType`. -/
inductive SubroutineReturnType
  | void
  | general (t : JType)
deriving DecidableEq, Repr

/-- `parser::Parameter`. -/
structure Parameter where
  paramType : JType
  name : String
deriving DecidableEq, Repr

/-- `parser::VarDec`. -/
structure VarDec where
  varType : JType
  varName : String
  extraVarNames : List String
deriving DecidableEq, Repr

/-- `parser::SubroutineBody`. -/
structure SubroutineBody where
  varDecs : List VarDec
  statements : Statements

/-- `parser::SubroutineDec`. -/
structure SubroutineDec where
  subroutineType : SubroutineType
  returnType : SubroutineReturnType
  name : String
  parameters : List Parameter
  body : SubroutineBody

/-- `parser::ClassVarDecType`. -/
inductive ClassVarDecType
  | staticDec | fieldDec
deriving DecidableEq, Repr

/-- `ClassVarDecType::to_symbol_kind`. -/
def ClassVarDecType.toSymbolKind : ClassVarDecType → SymbolKind
  | ClassVarDecType.staticDec => SymbolKind.staticK
  | ClassVarDecType.fieldDec => SymbolKind.field

/-- `parser::ClassVarDec`. -/
structure ClassVarDec where
  decType : ClassVarDecType
  varType : JType
  varName : String
  extraVarNames : List String

/-- `parser::Class`. -/
structure Class where
  name : String
  classVarDecs : List ClassVarDec
  subroutineDecs : List SubroutineDec

/-- `parser::VM` — the code generator state.  The charset is stateless, the
label generator is its counter (its class name equals `className`). -/
structure VMState where
  classTable : SymbolTable
  subroutineTable : SymbolTable
  labelCounter : Nat
  className : String
deriving DecidableEq, Repr

/-- `VM::new`. -/
def VMState.new (className : String) : VMState :=
  { classTable := SymbolTable.new
    subroutineTable := SymbolTable.new
    labelCounter := 0
    className := className }

/-- `VM::generate_label`. -/
def VMState.generateLabel (vm : VMState) : String × VMState :=
  (generatedLabel vm.className vm.labelCounter, { vm with labelCounter := vm.labelCounter + 1 })

/-- `VM::find_by` — subroutine table first, then class table. -/
def VMState.findBy (vm : VMState) (name : String) : Option Symbol :=
  (vm.subroutineTable.findBy name).orElse (fun _ => vm.classTable.findBy name)

/-- `VM::compile_operation`. -/
def compileOperation : Op → List String
  | Op.plus => [vmOp "add"]
  | Op.minus => [vmOp "sub"]
  | Op.multiply => [vmCall "Math.multiply" 2]
  | Op.divide => [vmCall "Math.divide" 2]
  | Op.and => [vmOp "and"]
  | Op.or => [vmOp "or"]
  | Op.lt => [vmOp "lt"]
  | Op.gt => [vmOp "gt"]
  | Op.eq => [vmOp "eq"]

/-- `VM::compile_unary_op`. -/
def compileUnaryOp : UnaryOp → List String
  | UnaryOp.negative => [vmOp "neg"]
  | UnaryOp.not => [vmOp "not"]

mutual

/-- `VM::compile_term`; `unwrap` on an unknown variable is a panic. -/
def compileTerm (vm : VMState) : Term → Except Unit (List String)
  | Term.integerConstant v => Except.ok [vmPush "constant" v]
  | Term.varName v =>
    match vm.findBy v with
    | some symbol => Except.ok [vmPush symbol.vmMemorySegment symbol.index]
    | none => Except.error ()
  | Term.keywordConstant KeywordConstant.null => Except.ok [vmPush "constant" 0]
  | Term.keywordConstant KeywordConstant.false => Except.ok [vmPush "constant" 0]
  | Term.keywordConstant KeywordConstant.true =>
    Except.ok [vmPush "constant" 1, vmOp "neg"]
  | Term.keywordConstant KeywordConstant.this => Except.ok [vmPush "pointer" 0]
  | Term.stringConstant v => compileString v
  | Term.expression e => compileExpression vm e
  | Term.call c => compileSubroutineCall vm c
  | Term.withUnary op t => do
    let inner ← compileTerm vm t
    pure (inner ++ compileUnaryOp op)
  | Term.indexVar v e =>
    match vm.findBy v with
    | some symbol => do
      let idx ← compileExpression vm e
      pure ([vmPush symbol.vmMemorySegment symbol.index] ++ idx ++
        [vmOp "add", vmPop "pointer" 1, vmPush "that" 0])
    | none => Except.error ()

/-- `VM::compile_expression`. -/
def compileExpression (vm : VMState) : Expression → Except Unit (List String)
  | Expression.mk term extra => do
    let first ← compileTerm vm term
    let rest ← compileOpTerms vm extra
    pure (first ++ rest)

/-- The `extra_op_terms` loop of `compile_expression`. -/
def compileOpTerms (vm : VMState) : OpTerms → Except Unit (List String)
  | OpTerms.nil => Except.ok []
  | OpTerms.cons op t rest => do
    let tl ← compileTerm vm t
    let rl ← compileOpTerms vm rest
    pure (tl ++ compileOperation op ++ rl)

/-- The `expression_list` loop of `compile_subroutine_call`. -/
def compileExpressionList (vm : VMState) : ExpressionList → Except Unit (List String)
  | ExpressionList.nil => Except.ok []
  | ExpressionList.cons e rest => do
    let el ← compileExpression vm e
    let rl ← compileExpressionList vm rest
    pure (el ++ rl)

/-- `VM::compile_subroutine_call`. -/
def compileSubroutineCall (vm : VMState) : SubroutineCall → Except Unit (List String)
  | SubroutineCall.mk caller subroutineName args => do
    let argLines ← compileExpressionList vm args
    match caller with
    | none =>
      pure ([vmPush "pointer" 0] ++ argLines ++
        [vmCall (vm.className ++ "." ++ subroutineName) ((args.length : Int) + 1)])
    | some callerName =>
      match vm.findBy callerName with
      | some symbol => do
        let cn ← symbol.className
        pure ([vmPush symbol.vmMemorySegment symbol.index] ++ argLines ++
          [vmCall (cn ++ "." ++ subroutineName) ((args.length : Int) + 1)])
      | none =>
        pure (argLines ++
          [vmCall (callerName ++ "." ++ subroutineName) (args.length : Int)])

end

/-- `VM::compile_let_statement`. -/
def compileLetStatement (vm : VMState) (varName : String)
    (indexExpression : Option Expression) (expression : Expression) :
    Except Unit (List String) :=
  match vm.findBy varName with
  | none => Except.error ()
  | some symbol =>
    match indexExpression with
    | some idx => do
      let idxLines ← compileExpression vm idx
      let exprLines ← compileExpression vm expression
      pure ([vmPush symbol.vmMemorySegment symbol.index] ++ idxLines ++
        [vmOp "add"] ++ exprLines ++
        [vmPop "temp" 0, vmPop "pointer" 1, vmPush "temp" 0, vmPop "that" 0])
    | none => do
      let exprLines ← compileExpression vm expression
      pure (exprLines ++ [vmPop symbol.vmMemorySegment symbol.index])

mutual

/-- `VM::compile_statements` (threads the label counter). -/
def compileStatements (vm : VMState) (ret : SubroutineReturnType) :
    Statements → Except Unit (List String × VMState)
  | Statements.nil => Except.ok ([], vm)
  | Statements.cons s rest => do
    let (first, vm1) ← compileStatement vm ret s
    let (tail, vm2) ← compileStatements vm1 ret rest
    pure (first ++ tail, vm2)

/-- One arm of the `compile_statements` match. -/
def compileStatement (vm : VMState) (ret : SubroutineReturnType) :
    Statement → Except Unit (List String × VMState)
  | Statement.doStmt c => do
    let lines ← compileSubroutineCall vm c
    pure (lines ++ [vmPop "temp" 0], vm)
  | Statement.letStmt v idx e => do
    let lines ← compileLetStatement vm v idx e
    pure (lines, vm)
  | Statement.ifStmt e thens => do
    let (l1, vm1) := vm.generateLabel
    let (l2, vm2) := vm1.generateLabel
    let cond ← compileExpression vm2 e
    let (thenLines, vm3) ← compileStatements vm2 ret thens
    pure (cond ++ [vmOp "not", vmIfGoto l1] ++ thenLines ++
      [vmGoto l2, vmLabel l1, vmLabel l2], vm3)
  | Statement.ifElseStmt e thens elses => do
    let (l1, vm1) := vm.generateLabel
    let (l2, vm2) := vm1.generateLabel
    let cond ← compileExpression vm2 e
    let (thenLines, vm3) ← compileStatements vm2 ret thens
    let (elseLines, vm4) ← compileStatements vm3 ret elses
    pure (cond ++ [vmOp "not", vmIfGoto l1] ++ thenLines ++
      [vmGoto l2, vmLabel l1] ++ elseLines ++ [vmLabel l2], vm4)
  | Statement.whileStmt e body => do
    let (l1, vm1) := vm.generateLabel
    let (l2, vm2) := vm1.generateLabel
    let cond ← compileExpression vm2 e
    let (bodyLines, vm3) ← compileStatements vm2 ret body
    pure ([vmLabel l1] ++ cond ++ [vmOp "not", vmIfGoto l2] ++ bodyLines ++
      [vmGoto l1, vmLabel l2], vm3)
  | Statement.returnStmt e => do
    let lines ←
      match e with
      | some expression => compileExpression vm expression
      | none =>
        match ret with
        | SubroutineReturnType.void => Except.ok [vmPush "constant" 0]
        | _ => Except.ok []
    pure (lines ++ ["return"], vm)

end

/-- The subroutine-table construction and `n_vars` count at the start of
`VM::compile_subroutine`. -/
def buildSubroutineTable (className : String) (sd : SubroutineDec) : SymbolTable × Int :=
  let t0 := SymbolTable.new
  let t1 :=
    match sd.subroutineType with
    | SubroutineType.method =>
      t0.push "this" (JType.className className) SymbolKind.argument
    | _ => t0
  let t2 := sd.parameters.foldl
    (fun t p => t.push p.name p.paramType SymbolKind.argument) t1
  let step := fun (acc : SymbolTable × Int) (vd : VarDec) =>
    let acc1 := (acc.1.push vd.varName vd.varType SymbolKind.localK, acc.2 + 1)
    vd.extraVarNames.foldl
      (fun a nm => (a.1.push nm vd.varType SymbolKind.localK, a.2 + 1)) acc1
  sd.body.varDecs.foldl step (t2, 0)

/-- `VM::compile_subroutine`. -/
def compileSubroutine (vm : VMState) (sd : SubroutineDec) :
    Except Unit (List String × VMState) := do
  let (table, nVars) := buildSubroutineTable vm.className sd
  let vm1 := { vm with subroutineTable := table }
  let functionName := vm1.className ++ "." ++ sd.name
  let head := [vmFunction functionName nVars]
  let prologue :=
    match sd.subroutineType with
    | SubroutineType.constructor =>
      [vmPush "constant" vm1.classTable.fieldVarsCount,
       vmCall "Memory.alloc" 1, vmPop "pointer" 0]
    | SubroutineType.method => [vmPush "argument" 0, vmPop "pointer" 0]
    | SubroutineType.function => []
  let (stmts, vm2) ← compileStatements vm1 sd.returnType sd.body.statements
  pure (head ++ prologue ++ stmts, vm2)

/-- The class-variable pass of `VM::compile_class`. -/
def buildClassTable (t : SymbolTable) (decs : List ClassVarDec) : SymbolTable :=
  decs.foldl
    (fun t vd =>
      let t1 := t.push vd.varName vd.varType vd.decType.toSymbolKind
      vd.extraVarNames.foldl (fun t nm => t.push nm vd.varType vd.decType.toSymbolKind) t1)
    t

/-- The subroutine loop of `VM::compile_class`. -/
def compileSubroutines (vm : VMState) : List SubroutineDec → Except Unit (List String × VMState)
  | [] => Except.ok ([], vm)
  | sd :: rest => do
    let (first, vm1) ← compileSubroutine vm sd
    let (tail, vm2) ← compileSubroutines vm1 rest
    pure (first ++ tail, vm2)

/-- `VM::compile_class`. -/
def compileClass (vm : VMState) (cls : Class) : Except Unit (List String × VMState) := do
  let vm1 := { vm with classTable := buildClassTable vm.classTable cls.classVarDecs }
  compileSubroutines vm1 cls.subroutineDecs

/-- The number of local variables declared by a subroutine body (the quantity
named `nLocals` by the specification). -/
def numLocals (sd : SubroutineDec) : Nat :=
  (sd.body.varDecs.map (fun vd => 1 + vd.extraVarNames.length)).sum

/-- The number of field variables declared by a class (the quantity named
`fieldCount` by the specification). -/
def numFields (cls : Class) : Nat :=
  ((cls.classVarDecs.filter (fun vd => vd.decType = ClassVarDecType.fieldDec)).map
    (fun vd => 1 + vd.extraVarNames.length)).sum

/-- A concrete subroutine: `constructor Point new()` with locals `a, b`. -/
def sdPoint : SubroutineDec :=
  { subroutineType := SubroutineType.constructor
    returnType := SubroutineReturnType.general (JType.className "Point")
    name := "new"
    parameters := []
    body := { varDecs := [{ varType := JType.int, varName := "a",
                            extraVarNames := ["b"] }]
              statements := Statements.nil } }

/-- A fresh generator state for class `Point`. -/
def vmPoint : VMState := VMState.new "Point"

/-- `vmPoint` with the subroutine table built for `sdPoint`. -/
def vmPointMid : VMState :=
  { vmPoint with subroutineTable := (buildSubroutineTable vmPoint.className sdPoint).1 }

end Jack

namespace VMT

/-- Whether a command is a comparison (`eq`, `gt` or `lt`). -/
def isComparison : Command → Bool
  | Command.arithmetic Operator.eq => true
  | Command.arithmetic Operator.lt => true
  | Command.arithmetic Operator.gt => true
  | _ => false

/-- Whether a command is a `call`. -/
def isCall : Command → Bool
  | Command.call _ _ => true
  | _ => false

/-- Number of comparison commands in a list. -/
def countComparisons (cs : List Command) : Nat := cs.countP isComparison

/-- Number of `call` commands in a list. -/
def countCalls (cs : List Command) : Nat := cs.countP isCall

/-- The return label minted for the `k`-th `call` of a file with stem
`stem`. -/
def retLabel (stem : String) (k : Nat) : String :=
  stem ++ "$ret." ++ Rust.natToString k

/-- The jump mnemonic `comp_logic` receives for a comparison operator. -/
def jumpOf : Operator → String
  | Operator.eq => "JEQ"
  | Operator.lt => "JLT"
  | Operator.gt => "JGT"
  | _ => ""

/-- The comparison relation a comparison operator denotes. -/
def relOf : Operator → Int → Int → Prop
  | Operator.eq => fun x y => x = y
  | Operator.lt => fun x y => x < y
  | Operator.gt => fun x y => x > y
  | _ => fun _ _ => False

/-- The pair of labels (branch target and its `_END` companion) minted by the
`k`-th comparison of a file with comparison-label prefix `pref`. -/
def compLabelPair (pref : String) (k : Nat) : List String :=
  [compLabel pref k, compLabel pref k ++ "_END"]

/-- All `2 * n` labels minted by the first `n` comparisons. -/
def compLabelsList (pref : String) (n : Nat) : List String :=
  (List.range n).flatMap (compLabelPair pref)

/-- Whether a command is `pop constant i` (the one command `translate`
silently drops). -/
def isPopConstant : Command → Bool
  | Command.pop Segment.constant _ => true
  | _ => false

/-- Whether a command is a pointer access with an index other than 0 or 1
(the commands on which `translate` panics). -/
def isPointerOutOfRange : Command → Bool
  | Command.push Segment.pointer i => ¬ (i = 0 ∨ i = 1)
  | Command.pop Segment.pointer i => ¬ (i = 0 ∨ i = 1)
  | _ => false

end VMT

namespace Asm

/-- Whether an instruction is a label line `(L)`. -/
def isLabelInstr : Instruction → Bool
  | Instruction.L _ => true
  | _ => false

/-- The number of output-producing (non-label) instructions. -/
def countNonLabel (instrs : List Instruction) : Nat :=
  instrs.countP (fun i => ¬ isLabelInstr i)

/-- The symbols the variable pass assigns fresh RAM addresses to, in order of
first occurrence: symbols of `@`-instructions that are not `i16` numerals,
not among `seen` (the keys already in the table), and not seen earlier in the
list. -/
def freshSyms (seen : List String) : List Instruction → List String
  | [] => []
  | Instruction.A s :: rest =>
    if (Rust.parseI16S s).isNone then
      if s ∈ seen then freshSyms seen rest
      else s :: freshSyms (s :: seen) rest
    else freshSyms seen rest
  | _ :: rest => freshSyms seen rest

/-- The keys of a symbol table. -/
def dictKeys (dict : List (String × Int)) : List String := dict.map Prod.fst

end Asm

namespace Rust

theorem natToCharsAux_stable (n : Nat) : ∀ f₁ f₂, n < f₁ → n < f₂ →
    natToCharsAux f₁ n = natToCharsAux f₂ n := by
  induction n using Nat.strong_induction_on with
  | _ n ih =>
    intro f₁ f₂ h₁ h₂
    match f₁, f₂, h₁, h₂ with
    | g₁ + 1, g₂ + 1, h₁, h₂ =>
      simp only [natToCharsAux]
      by_cases h : n < 10
      · simp [h]
      · simp only [h, if_false]
        have hd : n / 10 < n := Nat.div_lt_self (by omega) (by norm_num)
        rw [ih (n / 10) hd g₁ g₂ (by omega) (by omega)]

theorem natToChars_eq (n : Nat) : natToChars n =
    if n < 10 then [Nat.digitChar n]
    else natToChars (n / 10) ++ [Nat.digitChar (n % 10)] := by
  by_cases h : n < 10
  · simp [natToChars, natToCharsAux, h]
  · simp only [natToChars, h, if_false]
    conv_lhs => rw [natToCharsAux]
    simp only [h, if_false]
    rw [natToCharsAux_stable (n / 10) n (n / 10 + 1) (by omega) (by omega)]

theorem digitChar_isDigit : ∀ d, d < 10 → (Nat.digitChar d).isDigit = true := by decide

theorem digitChar_toNat : ∀ d, d < 10 → (Nat.digitChar d).toNat = 48 + d := by decide

theorem natToChars_ne_nil (n : Nat) : natToChars n ≠ [] := by
  rw [natToChars_eq]
  by_cases h : n < 10 <;> simp [h]

theorem natToChars_all_digit (n : Nat) : ∀ c ∈ natToChars n, c.isDigit = true := by
  induction n using Nat.strong_induction_on with
  | _ n ih =>
    rw [natToChars_eq]
    by_cases h : n < 10
    · simp only [h, if_true, List.mem_singleton]
      rintro c rfl
      exact digitChar_isDigit n h
    · simp only [h, if_false, List.mem_append, List.mem_singleton]
      rintro c (hc | rfl)
      · exact ih (n / 10) (Nat.div_lt_self (by omega) (by norm_num)) c hc
      · exact digitChar_isDigit _ (Nat.mod_lt n (by norm_num))

theorem digitsVal_append (xs : List Char) (c : Char) :
    digitsVal (xs ++ [c]) = 10 * digitsVal xs + (c.toNat - 48) := by
  simp [digitsVal, List.foldl_append]

theorem digitsVal_natToChars (n : Nat) : digitsVal (natToChars n) = n := by
  induction n using Nat.strong_induction_on with
  | _ n ih =>
    rw [natToChars_eq]
    by_cases h : n < 10
    · simp only [h, if_true]
      have := digitChar_toNat n h
      simp [digitsVal, this]
    · simp only [h, if_false, digitsVal_append]
      rw [ih (n / 10) (Nat.div_lt_self (by omega) (by norm_num))]
      rw [digitChar_toNat (n % 10) (Nat.mod_lt n (by norm_num))]
      omega

theorem parseNat?_natToChars (n : Nat) : parseNat? (natToChars n) = some n := by
  have h1 := natToChars_ne_nil n
  have h2 := natToChars_all_digit n
  simp only [parseNat?, h1, if_false, if_neg h1]
  rw [if_pos, digitsVal_natToChars]
  exact List.all_eq_true.mpr h2

theorem natToString_injective {a b : Nat} (h : natToString a = natToString b) : a = b := by
  have hd : natToChars a = natToChars b := congrArg String.data h
  have := digitsVal_natToChars a
  rw [hd, digitsVal_natToChars] at this
  omega

theorem parseI16?_natToChars {n : Nat} (h : n ≤ 32767) :
    parseI16? (natToChars n) = some (n : Int) := by
  rcases hnc : natToChars n with _ | ⟨c, rest⟩
  · exact absurd hnc (natToChars_ne_nil n)
  · have hcd : c.isDigit = true := by
      have := natToChars_all_digit n c
      rw [hnc] at this
      exact this (by simp)
    have hc1 : c ≠ '-' := by rintro rfl; simp [Char.isDigit] at hcd
    have hc2 : c ≠ '+' := by rintro rfl; simp [Char.isDigit] at hcd
    have hp : parseNat? (c :: rest) = some n := by rw [← hnc, parseNat?_natToChars]
    simp [parseI16?, hc1, hc2, hp, h]

theorem data_minus_append (s : String) : ("-" ++ s).data = '-' :: s.data := by
  rw [String.data_append]
  rfl

theorem parseI16S_intToString {v : Int} (h1 : -32768 ≤ v) (h2 : v ≤ 32767) :
    parseI16S (intToString v) = some v := by
  by_cases hv : v < 0
  · have hle : (-v).toNat ≤ 32768 := by omega
    have hp : parseNat? (natToChars (-v).toNat) = some ((-v).toNat) :=
      parseNat?_natToChars _
    simp only [intToString, hv, if_true, parseI16S, data_minus_append]
    show parseI16? ('-' :: natToChars (-v).toNat) = some v
    simp [parseI16?, hp, hle]
    omega
  · have hb : v.toNat ≤ 32767 := by omega
    simp only [intToString, hv, if_false, parseI16S, natToString]
    show parseI16? (natToChars v.toNat) = some v
    rw [parseI16?_natToChars hb]
    congr 1
    omega

theorem parseNat?_none_of_nondigit {cs : List Char} {c : Char} (hm : c ∈ cs)
    (hc : ¬ c.isDigit = true) : parseNat? cs = none := by
  have hne : cs ≠ [] := by rintro rfl; simp at hm
  have hall : cs.all Char.isDigit = false := by
    rcases hb : cs.all Char.isDigit with _ | _
    · rfl
    · exact absurd (List.all_eq_true.mp hb c hm) hc
  simp [parseNat?, hne, hall]

theorem parseI16?_none_of_nondigit {cs : List Char} {c : Char} (hm : c ∈ cs)
    (hc : ¬ c.isDigit = true) (h1 : c ≠ '-') (h2 : c ≠ '+') :
    parseI16? cs = none := by
  match cs, hm with
  | c' :: rest, hm =>
    by_cases hcm : c' = '-'
    · subst hcm
      have hr : c ∈ rest := by
        rcases List.mem_cons.mp hm with rfl | h
        · exact absurd rfl h1
        · exact h
      simp [parseI16?, parseNat?_none_of_nondigit hr hc]
    · by_cases hcp : c' = '+'
      · subst hcp
        have hr : c ∈ rest := by
          rcases List.mem_cons.mp hm with rfl | h
          · exact absurd rfl h2
          · exact h
        simp [parseI16?, hcm, parseNat?_none_of_nondigit hr hc]
      · have hn : parseNat? (c' :: rest) = none := parseNat?_none_of_nondigit hm hc
        simp [parseI16?, hcm, hcp, hn]

end Rust

/-- C3: the claim says a multi-file (directory) translation begins with a
bootstrap (`SP ← 256` then `call Sys.init 0`).  The translator's `run` never
calls `Hack::bootstrap`: a directory translation's output contains no
bootstrap — even for an entry that passes the `.vm` filter, the output starts
directly with the first command's translation, and for ordinary entries the
output is just the end marker.  The unused `bootstrap` does have exactly the
content the specification describes. -/
theorem C3_run_emits_no_bootstrap :
    VMT.run (VMT.Source.directory
      [("Foo.vm", ["push constant 1"]), ("Bar.vm", ["push constant 2"])]) =
      Except.ok ["// Program end", "(END)", "@END", "0;JMP"] ∧
    VMT.run (VMT.Source.directory [(".vm", ["push constant 1"])]) =
      Except.ok ["// push constant 1", "@1", "D=A", "@SP", "A=M", "M=D", "@SP",
        "M=M+1", "// Program end", "(END)", "@END", "0;JMP"] ∧
    VMT.bootstrap =
      ["@256", "D=A", "@SP", "M=D"] ++ VMT.translateCall "Sys$ret" "Sys.init" 0 := by
  refine ⟨rfl, rfl, rfl⟩

/-- C5: evaluation of the code generator at the failing inputs.  The
`CharSet` of the source inserts `('/', 92)` a second time where ASCII has the
backslash, so `'/'` decodes to 92 (its ASCII value is 47), the backslash is
absent and panics, while every other printable ASCII character decodes to its
ASCII value (shown here for `'a'`, `' '` and `'~'`); a string literal `"/"`
is materialized with `push constant 92`. -/
theorem C5_charset_slash_evaluation :
    Jack.compileString "/" =
      Except.ok ["push constant 1", "call String.new 1",
        "push constant 92", "call String.appendChar 2"] ∧
    Jack.charSetDecode '/' = Except.ok 92 ∧
    Jack.charSetDecode '\\' = Except.error () ∧
    Jack.charSetDecode 'a' = Except.ok 97 ∧
    Jack.charSetDecode ' ' = Except.ok 32 ∧
    Jack.charSetDecode '~' = Except.ok 126 ∧
    Jack.charSetDecode '\n' = Except.ok 128 := by
  refine ⟨rfl, rfl, rfl, rfl, rfl, rfl, rfl⟩

/-- C10 (counterexample): the claim says `translate` returns `Some` for every
command other than `pop constant i`; but `push pointer 2` is not a
`pop constant` and `translate` panics on it instead of returning `Some`. -/
theorem C10_counterexample_push_pointer_two :
    VMT.Hack.new "Foo.vm" = some ⟨"Foo", "FOO_LABEL", 0, 0⟩ ∧
    VMT.isPopConstant (VMT.Command.push VMT.Segment.pointer 2) = false ∧
    VMT.translate ⟨"Foo", "FOO_LABEL", 0, 0⟩ (VMT.Command.push VMT.Segment.pointer 2) =
      Except.error () := by
  refine ⟨rfl, rfl, rfl⟩

/-- C10 (amended): `translate` silently drops exactly the `pop constant i`
commands (returning Rust's `None` and an unchanged state), panics exactly on
`push pointer i` / `pop pointer i` with `i ∉ {0, 1}`, and returns `Some`
assembly for every other command. -/
theorem C10_translate_classification (s : VMT.Hack) (c : VMT.Command) :
    (VMT.isPopConstant c = true → VMT.translate s c = Except.ok (none, s)) ∧
    (VMT.isPointerOutOfRange c = true → VMT.translate s c = Except.error ()) ∧
    (VMT.isPopConstant c = false → VMT.isPointerOutOfRange c = false →
      ∃ lines s', VMT.translate s c = Except.ok (some lines, s')) := by
  have easy : ∀ c', VMT.isPopConstant c' = false → VMT.isPointerOutOfRange c' = false →
      (∃ lines s', VMT.translate s c' = Except.ok (some lines, s')) →
      (VMT.isPopConstant c' = true → VMT.translate s c' = Except.ok (none, s)) ∧
      (VMT.isPointerOutOfRange c' = true → VMT.translate s c' = Except.error ()) ∧
      (VMT.isPopConstant c' = false → VMT.isPointerOutOfRange c' = false →
        ∃ lines s', VMT.translate s c' = Except.ok (some lines, s')) := by
    intro c' h1 h2 h3
    refine ⟨fun h => ?_, fun h => ?_, fun _ _ => h3⟩
    · rw [h1] at h
      cases h
    · rw [h2] at h
      cases h
  rcases c with op | ⟨seg, i⟩ | ⟨seg, i⟩ | l | l | l | ⟨nm, n⟩ | ⟨nm, n⟩ | _
  · rcases op <;> exact easy _ rfl rfl ⟨_, _, rfl⟩
  · rcases seg with _ | _ | _ | _ | _ | _ | _ | _
    case pointer =>
      refine ⟨fun h => by simp [VMT.isPopConstant] at h, ?_, ?_⟩
      · intro h
        simp only [VMT.isPointerOutOfRange, decide_eq_true_eq] at h
        have h0 : i ≠ 0 := fun he => h (Or.inl he)
        have h1 : i ≠ 1 := fun he => h (Or.inr he)
        simp [VMT.translate, VMT.pushPointer, h0, h1]
      · intro _ h
        rw [VMT.isPointerOutOfRange, decide_eq_false_iff_not, not_not] at h
        rcases h with rfl | rfl
        · exact ⟨_, _, rfl⟩
        · exact ⟨_, _, rfl⟩
    all_goals exact easy _ rfl rfl ⟨_, _, rfl⟩
  · rcases seg with _ | _ | _ | _ | _ | _ | _ | _
    case pointer =>
      refine ⟨fun h => by simp [VMT.isPopConstant] at h, ?_, ?_⟩
      · intro h
        simp only [VMT.isPointerOutOfRange, decide_eq_true_eq] at h
        have h0 : i ≠ 0 := fun he => h (Or.inl he)
        have h1 : i ≠ 1 := fun he => h (Or.inr he)
        simp [VMT.translate, VMT.popPointer, h0, h1]
      · intro _ h
        rw [VMT.isPointerOutOfRange, decide_eq_false_iff_not, not_not] at h
        rcases h with rfl | rfl
        · exact ⟨_, _, rfl⟩
        · exact ⟨_, _, rfl⟩
    case constant =>
      exact ⟨fun _ => rfl, fun h => by simp [VMT.isPointerOutOfRange] at h,
        fun h _ => by simp [VMT.isPopConstant] at h⟩
    all_goals exact easy _ rfl rfl ⟨_, _, rfl⟩
  · exact easy _ rfl rfl ⟨_, _, rfl⟩
  · exact easy _ rfl rfl ⟨_, _, rfl⟩
  · exact easy _ rfl rfl ⟨_, _, rfl⟩
  · exact easy _ rfl rfl ⟨_, _, rfl⟩
  · exact easy _ rfl rfl ⟨_, _, rfl⟩
  · exact easy _ rfl rfl ⟨_, _, rfl⟩

/-- C10 (witness): the classification applied to `pop constant 3`. -/
theorem C10_translate_classification_witness :
    VMT.isPopConstant (VMT.Command.pop VMT.Segment.constant 3) = true ∧
    VMT.translate ⟨"Foo", "FOO_LABEL", 0, 0⟩ (VMT.Command.pop VMT.Segment.constant 3) =
      Except.ok (none, ⟨"Foo", "FOO_LABEL", 0, 0⟩) :=
  ⟨rfl, (C10_translate_classification ⟨"Foo", "FOO_LABEL", 0, 0⟩
    (VMT.Command.pop VMT.Segment.constant 3)).1 rfl⟩

theorem keywords_contains_digits_false {s : String}
    (hd : ∀ c ∈ s.data, c.isDigit = true) : Jack.keywords.contains s = false := by
  by_contra h
  have hmem : s ∈ Jack.keywords := by
    have : Jack.keywords.contains s = true := by
      rcases hb : Jack.keywords.contains s with _ | _
      · exact absurd hb h
      · rfl
    simpa [List.contains, List.elem_eq_mem] using this
  fin_cases hmem <;>
    · revert hd
      decide

theorem symbols_contains_digit_false {c : Char} (hc : c.isDigit = true) :
    Jack.symbols.contains c = false := by
  by_contra h
  have hmem : c ∈ Jack.symbols := by
    have : Jack.symbols.contains c = true := by
      rcases hb : Jack.symbols.contains c with _ | _
      · exact absurd hb h
      · rfl
    simpa [List.contains, List.elem_eq_mem] using this
  fin_cases hmem <;>
    · revert hc
      decide

theorem digit_ne_space {c : Char} (hc : c.isDigit = true) : c ≠ ' ' := by
  rintro rfl
  exact absurd hc (by decide)

theorem digit_ne_quote {c : Char} (hc : c.isDigit = true) : c ≠ '"' := by
  rintro rfl
  exact absurd hc (by decide)

theorem parseI16?_digits {cs : List Char} (h1 : cs ≠ [])
    (h2 : ∀ c ∈ cs, c.isDigit = true) :
    Rust.parseI16? cs =
      if Rust.digitsVal cs ≤ 32767 then some ((Rust.digitsVal cs : Int)) else none := by
  match cs, h1 with
  | c :: rest, _ =>
    have hcd := h2 c (by simp)
    have hm : c ≠ '-' := by rintro rfl; exact absurd hcd (by decide)
    have hp : c ≠ '+' := by rintro rfl; exact absurd hcd (by decide)
    have hall : (c :: rest).all Char.isDigit = true := List.all_eq_true.mpr h2
    have hpn : Rust.parseNat? (c :: rest) = some (Rust.digitsVal (c :: rest)) := by
      simp [Rust.parseNat?, hall]
    simp only [Rust.parseI16?, hm, hp, if_false, hpn]

theorem mkToken_digits {cs : List Char} (h1 : cs ≠ [])
    (h2 : ∀ c ∈ cs, c.isDigit = true) :
    Jack.mkToken cs false =
      if Rust.digitsVal cs ≤ 32767 then Except.ok (Jack.Token.int (Rust.digitsVal cs))
      else Except.error () := by
  have hkw := keywords_contains_digits_false (s := ⟨cs⟩) h2
  have hall : cs.all Char.isDigit = true := List.all_eq_true.mpr h2
  simp only [Jack.mkToken, Bool.false_eq_true, if_false, hkw, hall, if_true,
    parseI16?_digits h1 h2]
  by_cases hv : Rust.digitsVal cs ≤ 32767 <;> simp [hv]

theorem lineTokens_digits {cs acc : List Char} (h2 : ∀ c ∈ cs, c.isDigit = true)
    (h3 : ∀ c ∈ acc, c.isDigit = true) (h4 : acc ++ cs ≠ []) :
    Jack.lineTokens cs acc false =
      (do
        let t ← Jack.mkToken (acc ++ cs) false
        pure [t]) := by
  induction cs generalizing acc with
  | nil =>
    have hne : acc ≠ [] := by simpa using h4
    simp [Jack.lineTokens, hne]
  | cons c rest ih =>
    have hcd := h2 c (by simp)
    have hs := digit_ne_space hcd
    have hq := digit_ne_quote hcd
    have hsym := symbols_contains_digit_false hcd
    have hnm : c ∉ Jack.symbols := by
      intro hm
      have hcont : Jack.symbols.contains c = true := by
        simp [List.contains, List.elem_eq_mem, hm]
      rw [hsym] at hcont
      cases hcont
    have step : Jack.lineTokens (c :: rest) acc false =
        Jack.lineTokens rest (acc ++ [c]) false := by
      simp [Jack.lineTokens, hs, hq, hnm]
    rw [step, ih (fun x hx => h2 x (by simp [hx]))
      (fun x hx => by
        rcases List.mem_append.mp hx with hx' | hx'
        · exact h3 x hx'
        · simp at hx'
          subst hx'
          exact hcd)
      (by simp)]
    rw [List.append_assoc]
    rfl

theorem trimChars_of_nonws {cs : List Char} (h : ∀ c ∈ cs, c.isWhitespace = false) :
    Rust.trimChars cs = cs := by
  have h1 : cs.dropWhile Char.isWhitespace = cs := by
    rcases cs with _ | ⟨c, rest⟩
    · rfl
    · rw [List.dropWhile_cons_of_neg (by simp [h c (by simp)])]
  have h2 : cs.reverse.dropWhile Char.isWhitespace = cs.reverse := by
    rcases hr : cs.reverse with _ | ⟨c, rest⟩
    · rfl
    · rw [List.dropWhile_cons_of_neg]
      simp only [Bool.not_eq_true]
      apply h
      rw [← List.mem_reverse, hr]
      simp
  simp [Rust.trimChars, h1, h2]

theorem splitOnceSlashes_none {cs : List Char} (h : '/' ∉ cs) :
    Rust.splitOnceSlashes cs = none := by
  induction cs with
  | nil => rfl
  | cons c rest ih =>
    rcases rest with _ | ⟨c2, rest2⟩
    · rfl
    · have hc : c ≠ '/' := by rintro rfl; simp at h
      have hrest : '/' ∉ c2 :: rest2 := by
        intro hm
        exact h (List.mem_cons_of_mem _ hm)
      rw [Rust.splitOnceSlashes, if_neg (by simp [hc]), ih hrest]

theorem digit_not_ws {c : Char} (hc : c.isDigit = true) : c.isWhitespace = false := by
  rcases hw : c.isWhitespace with _ | _
  · rfl
  · have : c = ' ' ∨ c = '\t' ∨ c = '\r' ∨ c = '\n' := by
      simpa [Char.isWhitespace, or_assoc] using hw
    rcases this with rfl | rfl | rfl | rfl <;> exact absurd hc (by decide)

theorem isPrefixOf_cons_false {p0 c : Char} (h : p0 ≠ c) (pt cs' : List Char) :
    ((p0 :: pt).isPrefixOf (c :: cs')) = false := by
  simp [List.isPrefixOf, h]

theorem tokenizeAux_cons_plain {line : String} {t : List Char}
    (ht : Rust.trimChars line.data = t)
    (h1 : ("/** ".data.isPrefixOf t) = false)
    (h2 : ("/**".data.isPrefixOf t) = false)
    (h3 : ("*/".data.isPrefixOf t) = false)
    (rest : List String) :
    Jack.tokenizeAux false (line :: rest) =
      (do
        let toks ← Jack.lineTokens (Rust.stripLineComment t) [] false
        let ts ← Jack.tokenizeAux false rest
        pure (toks ++ ts)) := by
  show (let t' := Rust.trimChars line.data
    if "/** ".data.isPrefixOf t' ∧ " */".data.isSuffixOf t' then Jack.tokenizeAux false rest
    else if "/**".data.isPrefixOf t' then Jack.tokenizeAux true rest
    else if "*/".data.isPrefixOf t' then Jack.tokenizeAux false rest
    else if false then Jack.tokenizeAux false rest
    else do
      let toks ← Jack.lineTokens (Rust.stripLineComment t') [] false
      let ts ← Jack.tokenizeAux false rest
      pure (toks ++ ts)) = _
  simp only [ht]
  rw [if_neg (fun hc => by rw [h1] at hc; exact absurd hc.1 (by simp)),
    if_neg (fun hc => by rw [h2] at hc; exact absurd hc (by simp)),
    if_neg (fun hc => by rw [h3] at hc; exact absurd hc (by simp)),
    if_neg (by simp)]

/-- C7: for a nonempty all-digit literal standing alone in a file, the
tokenizer produces the `Int` token of its decimal value exactly when that
value is at most 32767, and fails (the `parse::<i16>().unwrap()` panic)
when the value exceeds 32767. -/
theorem C7_int_token_iff_in_range (cs : List Char) (h1 : cs ≠ [])
    (h2 : ∀ c ∈ cs, c.isDigit = true) :
    (Rust.digitsVal cs ≤ 32767 →
      Jack.tokenize [⟨cs⟩] = Except.ok [Jack.Token.int (Rust.digitsVal cs)]) ∧
    (32767 < Rust.digitsVal cs → Jack.tokenize [⟨cs⟩] = Except.error ()) := by
  obtain ⟨c0, rest, rfl⟩ := List.exists_cons_of_ne_nil h1
  have hc0 := h2 c0 (by simp)
  have hslash : ('/' : Char) ≠ c0 := by
    rintro rfl; exact absurd hc0 (by decide)
  have hstar : ('*' : Char) ≠ c0 := by
    rintro rfl; exact absurd hc0 (by decide)
  have htrim : Rust.trimChars (String.data ⟨c0 :: rest⟩) = c0 :: rest :=
    trimChars_of_nonws (fun c hc => digit_not_ws (h2 c hc))
  have hstrip : Rust.stripLineComment (c0 :: rest) = c0 :: rest := by
    rw [Rust.stripLineComment, splitOnceSlashes_none]
    intro hm
    have := h2 '/' hm
    exact absurd this (by decide)
  have hkey : Jack.tokenize [⟨c0 :: rest⟩] =
      (do
        let toks ← Jack.lineTokens (c0 :: rest) [] false
        let ts ← Jack.tokenizeAux false []
        pure (toks ++ ts)) := by
    rw [Jack.tokenize, tokenizeAux_cons_plain htrim
      (isPrefixOf_cons_false hslash _ _) (isPrefixOf_cons_false hslash _ _)
      (isPrefixOf_cons_false hstar _ _) [], hstrip]
  have hlt : Jack.lineTokens (c0 :: rest) [] false =
      (do
        let t ← Jack.mkToken (c0 :: rest) false
        pure [t]) := by
    have := @lineTokens_digits (c0 :: rest) [] h2 (by simp) (by simp)
    simpa using this
  have hmk := @mkToken_digits (c0 :: rest) h1 h2
  constructor
  · intro hv
    rw [hkey, hlt, hmk, if_pos hv]
    rfl
  · intro hv
    rw [hkey, hlt, hmk, if_neg (by omega)]
    rfl

/-- C7 (witness): the theorem applied to the literal `205`. -/
theorem C7_int_token_iff_in_range_witness :
    Jack.tokenize ["205"] = Except.ok [Jack.Token.int 205] :=
  (C7_int_token_iff_in_range "205".data (by decide) (by decide)).1 (by decide)

theorem trimChars_doubleslash (cs : List Char) :
    ∃ x, Rust.trimChars ('/' :: '/' :: cs) = '/' :: '/' :: x := by
  have h1 : ('/' :: '/' :: cs).dropWhile Char.isWhitespace = '/' :: '/' :: cs := by
    rw [List.dropWhile_cons_of_neg (by decide)]
  have hrev : ('/' :: '/' :: cs).reverse = cs.reverse ++ ['/', '/'] := by
    simp
  rw [Rust.trimChars, h1, hrev, List.dropWhile_append]
  by_cases he : (cs.reverse.dropWhile Char.isWhitespace).isEmpty = true
  · refine ⟨[], ?_⟩
    rw [if_pos he]
    rfl
  · refine ⟨(cs.reverse.dropWhile Char.isWhitespace).reverse, ?_⟩
    rw [if_neg he]
    simp

theorem stripLineComment_doubleslash (x : List Char) :
    Rust.stripLineComment ('/' :: '/' :: x) = [] := by
  rw [Rust.stripLineComment, Rust.splitOnceSlashes, if_pos ⟨rfl, rfl⟩]

theorem tokenizeAux_true_skip {line : String}
    (h3 : ("*/".data.isPrefixOf (Rust.trimChars line.data)) = false)
    (rest : List String) :
    Jack.tokenizeAux true (line :: rest) = Jack.tokenizeAux true rest := by
  show (if "/** ".data.isPrefixOf (Rust.trimChars line.data) ∧
      " */".data.isSuffixOf (Rust.trimChars line.data) then Jack.tokenizeAux true rest
    else if "/**".data.isPrefixOf (Rust.trimChars line.data) then Jack.tokenizeAux true rest
    else if "*/".data.isPrefixOf (Rust.trimChars line.data) then Jack.tokenizeAux false rest
    else Jack.tokenizeAux true rest) = Jack.tokenizeAux true rest
  split_ifs with hc1 hc2 hc3
  · rfl
  · rfl
  · rw [h3] at hc3
    exact absurd hc3 (by simp)
  · rfl

theorem tokenizeAux_false_lineComment (c : String) (rest : List String) :
    Jack.tokenizeAux false (("//" ++ c) :: rest) = Jack.tokenizeAux false rest := by
  have hdata : ("//" ++ c).data = '/' :: '/' :: c.data := by
    rw [String.data_append]
    rfl
  obtain ⟨x, hx⟩ := trimChars_doubleslash c.data
  rw [tokenizeAux_cons_plain (t := '/' :: '/' :: x) (by rw [hdata]; exact hx)
    rfl rfl rfl rest, stripLineComment_doubleslash]
  show (do
    let toks ← (Except.ok [] : Except Unit (List Jack.Token))
    let ts ← Jack.tokenizeAux false rest
    pure (toks ++ ts)) = _
  cases Jack.tokenizeAux false rest <;> rfl

theorem tokenizeAux_lineComment (flag : Bool) (c : String) (rest : List String) :
    Jack.tokenizeAux flag (("//" ++ c) :: rest) = Jack.tokenizeAux flag rest := by
  cases flag
  · exact tokenizeAux_false_lineComment c rest
  · have hdata : ("//" ++ c).data = '/' :: '/' :: c.data := by
      rw [String.data_append]
      rfl
    obtain ⟨x, hx⟩ := trimChars_doubleslash c.data
    apply tokenizeAux_true_skip
    rw [hdata, hx]
    rfl

theorem trimChars_eq_self_of_ends {l : List Char} {a b : Char} {l₁ l₂ : List Char}
    (h1 : l = a :: l₁) (ha : a.isWhitespace = false)
    (h2 : l = l₂ ++ [b]) (hb : b.isWhitespace = false) :
    Rust.trimChars l = l := by
  have hd : l.dropWhile Char.isWhitespace = l := by
    rw [h1, List.dropWhile_cons_of_neg (by simp [ha])]
  have hr : l.reverse.dropWhile Char.isWhitespace = l.reverse := by
    rw [h2]
    simp only [List.reverse_append, List.reverse_singleton, List.singleton_append]
    rw [List.dropWhile_cons_of_neg (by simp [hb])]
  rw [Rust.trimChars, hd, hr, List.reverse_reverse]

theorem tokenizeAux_first_branch {line : String} (flag : Bool)
    (h1 : ("/** ".data.isPrefixOf (Rust.trimChars line.data)) = true)
    (h2 : (" */".data.isSuffixOf (Rust.trimChars line.data)) = true)
    (rest : List String) :
    Jack.tokenizeAux flag (line :: rest) = Jack.tokenizeAux flag rest := by
  cases flag
  · show (if "/** ".data.isPrefixOf (Rust.trimChars line.data) ∧
        " */".data.isSuffixOf (Rust.trimChars line.data) then Jack.tokenizeAux false rest
      else if "/**".data.isPrefixOf (Rust.trimChars line.data) then Jack.tokenizeAux true rest
      else if "*/".data.isPrefixOf (Rust.trimChars line.data) then Jack.tokenizeAux false rest
      else (do
        let toks ← Jack.lineTokens (Rust.stripLineComment (Rust.trimChars line.data)) [] false
        let ts ← Jack.tokenizeAux false rest
        pure (toks ++ ts))) = Jack.tokenizeAux false rest
    rw [if_pos ⟨h1, h2⟩]
  · show (if "/** ".data.isPrefixOf (Rust.trimChars line.data) ∧
        " */".data.isSuffixOf (Rust.trimChars line.data) then Jack.tokenizeAux true rest
      else if "/**".data.isPrefixOf (Rust.trimChars line.data) then Jack.tokenizeAux true rest
      else if "*/".data.isPrefixOf (Rust.trimChars line.data) then Jack.tokenizeAux false rest
      else Jack.tokenizeAux true rest) = Jack.tokenizeAux true rest
    rw [if_pos ⟨h1, h2⟩]

theorem tokenizeAux_starComment (flag : Bool) (c : String) (rest : List String) :
    Jack.tokenizeAux flag (("/** " ++ c ++ " */") :: rest) = Jack.tokenizeAux flag rest := by
  have hdata : ("/** " ++ c ++ " */").data = "/** ".data ++ c.data ++ " */".data := by
    rw [String.data_append, String.data_append]
  have htrim : Rust.trimChars (("/** " ++ c ++ " */").data) = ("/** " ++ c ++ " */").data := by
    refine @trimChars_eq_self_of_ends _ '/' '/'
      (('*' :: '*' :: ' ' :: c.data) ++ " */".data)
      (("/** ".data ++ c.data) ++ [' ', '*']) ?_ rfl ?_ rfl
    · rw [hdata]
      rfl
    · rw [hdata]
      simp
  apply tokenizeAux_first_branch
  · rw [htrim, List.isPrefixOf_iff_prefix, hdata, List.append_assoc]
    exact List.prefix_append _ _
  · rw [htrim, List.isSuffixOf_iff_suffix, hdata]
    exact List.suffix_append _ _

theorem tokenizeAux_open_block (rest : List String) :
    Jack.tokenizeAux false ("/**" :: rest) = Jack.tokenizeAux true rest := by
  show (if "/** ".data.isPrefixOf (Rust.trimChars "/**".data) ∧
      " */".data.isSuffixOf (Rust.trimChars "/**".data) then Jack.tokenizeAux false rest
    else if "/**".data.isPrefixOf (Rust.trimChars "/**".data) then Jack.tokenizeAux true rest
    else if "*/".data.isPrefixOf (Rust.trimChars "/**".data) then Jack.tokenizeAux false rest
    else (do
      let toks ← Jack.lineTokens (Rust.stripLineComment (Rust.trimChars "/**".data)) [] false
      let ts ← Jack.tokenizeAux false rest
      pure (toks ++ ts))) = Jack.tokenizeAux true rest
  rw [if_neg (fun hc => absurd hc.1 (by decide)), if_pos (by decide)]

theorem tokenizeAux_close_block (rest : List String) :
    Jack.tokenizeAux true ("*/" :: rest) = Jack.tokenizeAux false rest := by
  show (if "/** ".data.isPrefixOf (Rust.trimChars "*/".data) ∧
      " */".data.isSuffixOf (Rust.trimChars "*/".data) then Jack.tokenizeAux true rest
    else if "/**".data.isPrefixOf (Rust.trimChars "*/".data) then Jack.tokenizeAux true rest
    else if "*/".data.isPrefixOf (Rust.trimChars "*/".data) then Jack.tokenizeAux false rest
    else Jack.tokenizeAux true rest) = Jack.tokenizeAux false rest
  rw [if_neg (fun hc => absurd hc.1 (by decide)), if_neg (by decide), if_pos (by decide)]

theorem tokenizeAux_blockComment (mid : List String) (rest : List String)
    (hm : ∀ m ∈ mid, ("*/".data.isPrefixOf (Rust.trimChars m.data)) = false) :
    Jack.tokenizeAux false ("/**" :: (mid ++ "*/" :: rest)) = Jack.tokenizeAux false rest := by
  rw [tokenizeAux_open_block]
  induction mid with
  | nil => exact tokenizeAux_close_block rest
  | cons m ms ih =>
    rw [List.cons_append, tokenizeAux_true_skip (hm m (by simp)) _,
      ih (fun m' hm' => hm m' (by simp [hm']))]

/-- C8 (counterexample): the claim says `/* … */` block comments are skipped
and yield no tokens; the tokenizer only handles `/**`-style comments, so the
line `/* x */` is tokenized into five tokens. -/
theorem C8_counterexample_slash_star :
    Jack.tokenize ["/* x */"] =
      Except.ok [Jack.Token.symbol '/', Jack.Token.symbol '*',
        Jack.Token.identifier "x", Jack.Token.symbol '*', Jack.Token.symbol '/'] ∧
    Jack.tokenize [""] = Except.ok [] := ⟨rfl, rfl⟩

/-- C8 (amended): the tokenizer produces no tokens from `// …` line comments,
from `/** … */` one-line block comments, or from multi-line `/** … */` blocks
whose interior lines do not begin with `*/`; removing such a comment does not
change the token stream.  (Single-asterisk `/* … */` comments are *not*
skipped.) -/
theorem C8_comment_lines_produce_no_tokens :
    (∀ (flag : Bool) (c : String) (rest : List String),
      Jack.tokenizeAux flag (("//" ++ c) :: rest) = Jack.tokenizeAux flag rest) ∧
    (∀ (flag : Bool) (c : String) (rest : List String),
      Jack.tokenizeAux flag (("/** " ++ c ++ " */") :: rest) = Jack.tokenizeAux flag rest) ∧
    (∀ (mid rest : List String),
      (∀ m ∈ mid, ("*/".data.isPrefixOf (Rust.trimChars m.data)) = false) →
      Jack.tokenizeAux false ("/**" :: (mid ++ "*/" :: rest)) = Jack.tokenizeAux false rest) ∧
    (∀ (c : String) (rest : List String),
      Jack.tokenize (("//" ++ c) :: rest) = Jack.tokenize rest) := by
  refine ⟨tokenizeAux_lineComment, tokenizeAux_starComment, tokenizeAux_blockComment, ?_⟩
  intro c rest
  exact tokenizeAux_lineComment false c rest

/-- C8 (witness): the amended theorem applied to a concrete block comment. -/
theorem C8_comment_lines_produce_no_tokens_witness :
    (∀ m ∈ ["hi"], ("*/".data.isPrefixOf (Rust.trimChars m.data)) = false) ∧
    Jack.tokenizeAux false ["/**", "hi", "*/", "42"] = Jack.tokenizeAux false ["42"] :=
  ⟨by decide, C8_comment_lines_produce_no_tokens.2.2.1 ["hi"] ["42"] (by decide)⟩

namespace Asm

theorem labelPass_cons_A (d : List (String × Int)) (c : Int) (s : String)
    (rest : List Instruction) :
    labelPass d c (Instruction.A s :: rest) = labelPass d (c + 1) rest := rfl

theorem labelPass_cons_L (d : List (String × Int)) (c : Int) (s : String)
    (rest : List Instruction) :
    labelPass d c (Instruction.L s :: rest) =
      labelPass (dictInsertIfAbsent d s c) c rest := rfl

theorem labelPass_cons_C (d : List (String × Int)) (c : Int) (dst : Option String)
    (cmp : String) (jmp : Option String) (rest : List Instruction) :
    labelPass d c (Instruction.C dst cmp jmp :: rest) = labelPass d (c + 1) rest := rfl

theorem varPass_cons_A (d : List (String × Int)) (m : Int) (s : String)
    (rest : List Instruction) :
    varPass d m (Instruction.A s :: rest) =
      (if (Rust.parseI16S s).isNone then
        match dictGet d s with
        | some _ => varPass d m rest
        | none => varPass (d ++ [(s, m + 1)]) (m + 1) rest
      else varPass d m rest) := rfl

theorem varPass_cons_L (d : List (String × Int)) (m : Int) (s : String)
    (rest : List Instruction) :
    varPass d m (Instruction.L s :: rest) = varPass d m rest := rfl

theorem varPass_cons_C (d : List (String × Int)) (m : Int) (dst : Option String)
    (cmp : String) (jmp : Option String) (rest : List Instruction) :
    varPass d m (Instruction.C dst cmp jmp :: rest) = varPass d m rest := rfl

theorem freshSyms_cons_A (seen : List String) (s : String) (rest : List Instruction) :
    freshSyms seen (Instruction.A s :: rest) =
      (if (Rust.parseI16S s).isNone then
        if s ∈ seen then freshSyms seen rest
        else s :: freshSyms (s :: seen) rest
      else freshSyms seen rest) := rfl

theorem freshSyms_cons_L (seen : List String) (s : String) (rest : List Instruction) :
    freshSyms seen (Instruction.L s :: rest) = freshSyms seen rest := rfl

theorem freshSyms_cons_C (seen : List String) (dst : Option String) (cmp : String)
    (jmp : Option String) (rest : List Instruction) :
    freshSyms seen (Instruction.C dst cmp jmp :: rest) = freshSyms seen rest := rfl

theorem countNonLabel_cons_A (s : String) (rest : List Instruction) :
    countNonLabel (Instruction.A s :: rest) = countNonLabel rest + 1 := by
  simp [countNonLabel, List.countP_cons, isLabelInstr]

theorem countNonLabel_cons_L (s : String) (rest : List Instruction) :
    countNonLabel (Instruction.L s :: rest) = countNonLabel rest := by
  simp [countNonLabel, List.countP_cons, isLabelInstr]

theorem countNonLabel_cons_C (dst : Option String) (cmp : String) (jmp : Option String)
    (rest : List Instruction) :
    countNonLabel (Instruction.C dst cmp jmp :: rest) = countNonLabel rest + 1 := by
  simp [countNonLabel, List.countP_cons, isLabelInstr]

theorem dictGet_append (d1 d2 : List (String × Int)) (k : String) :
    dictGet (d1 ++ d2) k =
      match dictGet d1 k with
      | some v => some v
      | none => dictGet d2 k := by
  simp only [dictGet, List.find?_append]
  rcases h : d1.find? (fun p => p.1 = k) with _ | p <;> simp [h, Option.or]

theorem dictGet_mono {d : List (String × Int)} {k : String} {v : Int}
    (e : List (String × Int)) (h : dictGet d k = some v) :
    dictGet (d ++ e) k = some v := by
  rw [dictGet_append, h]

theorem insertIfAbsent_extends (d : List (String × Int)) (k : String) (v : Int) :
    ∃ e, dictInsertIfAbsent d k v = d ++ e := by
  rw [dictInsertIfAbsent]
  rcases dictGet d k with _ | w
  · exact ⟨[(k, v)], rfl⟩
  · exact ⟨[], by simp⟩

theorem labelPass_extends (instrs : List Instruction) :
    ∀ (d : List (String × Int)) (c : Int), ∃ e, labelPass d c instrs = d ++ e := by
  induction instrs with
  | nil => exact fun d c => ⟨[], by simp [labelPass]⟩
  | cons i rest ih =>
    intro d c
    rcases i with s | s | ⟨dst, cmp, jmp⟩
    · obtain ⟨e, he⟩ := ih d (c + 1)
      exact ⟨e, by rw [labelPass_cons_A, he]⟩
    · obtain ⟨e1, he1⟩ := insertIfAbsent_extends d s c
      obtain ⟨e2, he2⟩ := ih (dictInsertIfAbsent d s c) c
      exact ⟨e1 ++ e2, by rw [labelPass_cons_L, he2, he1, List.append_assoc]⟩
    · obtain ⟨e, he⟩ := ih d (c + 1)
      exact ⟨e, by rw [labelPass_cons_C, he]⟩

theorem varPass_extends (instrs : List Instruction) :
    ∀ (d : List (String × Int)) (m : Int), ∃ e, varPass d m instrs = d ++ e := by
  induction instrs with
  | nil => exact fun d m => ⟨[], by simp [varPass]⟩
  | cons i rest ih =>
    intro d m
    rcases i with s | s | ⟨dst, cmp, jmp⟩
    · by_cases hn : (Rust.parseI16S s).isNone
      · rcases hg : dictGet d s with _ | w
        · obtain ⟨e, he⟩ := ih (d ++ [(s, m + 1)]) (m + 1)
          refine ⟨[(s, m + 1)] ++ e, ?_⟩
          rw [varPass_cons_A, if_pos hn, hg, he, List.append_assoc]
        · obtain ⟨e, he⟩ := ih d m
          exact ⟨e, by rw [varPass_cons_A, if_pos hn, hg, he]⟩
      · obtain ⟨e, he⟩ := ih d m
        exact ⟨e, by rw [varPass_cons_A, if_neg hn, he]⟩
    · obtain ⟨e, he⟩ := ih d m
      exact ⟨e, by rw [varPass_cons_L, he]⟩
    · obtain ⟨e, he⟩ := ih d m
      exact ⟨e, by rw [varPass_cons_C, he]⟩

theorem dictGet_labelPass {d : List (String × Int)} {k : String} {v : Int}
    (instrs : List Instruction) (c : Int) (h : dictGet d k = some v) :
    dictGet (labelPass d c instrs) k = some v := by
  obtain ⟨e, he⟩ := labelPass_extends instrs d c
  rw [he]
  exact dictGet_mono e h

theorem dictGet_varPass {d : List (String × Int)} {k : String} {v : Int}
    (instrs : List Instruction) (m : Int) (h : dictGet d k = some v) :
    dictGet (varPass d m instrs) k = some v := by
  obtain ⟨e, he⟩ := varPass_extends instrs d m
  rw [he]
  exact dictGet_mono e h

theorem labelPass_append (pre post : List Instruction) :
    ∀ (d : List (String × Int)) (c : Int),
      labelPass d c (pre ++ post) =
        labelPass (labelPass d c pre) (c + (countNonLabel pre : Int)) post := by
  induction pre with
  | nil => intro d c; simp [labelPass, countNonLabel]
  | cons i rest ih =>
    intro i_d i_c
    rcases i with s | s | ⟨dst, cmp, jmp⟩
    · rw [List.cons_append, labelPass_cons_A, ih, labelPass_cons_A,
        countNonLabel_cons_A]
      congr 1
      push_cast
      ring
    · rw [List.cons_append, labelPass_cons_L, ih, labelPass_cons_L,
        countNonLabel_cons_L]
    · rw [List.cons_append, labelPass_cons_C, ih, labelPass_cons_C,
        countNonLabel_cons_C]
      congr 1
      push_cast
      ring

theorem exceptBind_ok {α β : Type} (x : Except Unit α) (f : α → Except Unit β)
    (b : β) (h : (x >>= f) = Except.ok b) :
    ∃ a, x = Except.ok a ∧ f a = Except.ok b := by
  cases x with
  | error e => simp [Bind.bind, Except.bind] at h
  | ok a => exact ⟨a, rfl, by simpa [Bind.bind, Except.bind] using h⟩

theorem dictGet_none_iff_not_mem_keys (d : List (String × Int)) (s : String) :
    dictGet d s = none ↔ s ∉ dictKeys d := by
  rw [dictGet, Option.map_eq_none', List.find?_eq_none]
  simp only [dictKeys, List.mem_map, decide_eq_true_eq]
  constructor
  · rintro h ⟨p, hp, rfl⟩
    exact h p hp rfl
  · intro h p hp hps
    exact h ⟨p, hp, hps⟩

theorem varPass_fresh (instrs : List Instruction) :
    ∀ (d : List (String × Int)) (m : Int) (seen : List String),
      (∀ s, dictGet d s = none ↔ s ∉ seen) →
      ∀ (k : Nat) (s : String), (freshSyms seen instrs).get? k = some s →
        dictGet (varPass d m instrs) s = some (m + 1 + (k : Int)) := by
  induction instrs with
  | nil =>
    intro d m seen hinv k s hk
    simp [freshSyms] at hk
  | cons i rest ih =>
    intro d m seen hinv k s hk
    rcases i with sym | sym | ⟨dst, cmp, jmp⟩
    · by_cases hn : (Rust.parseI16S sym).isNone
      · by_cases hmem : sym ∈ seen
        · have hg : dictGet d sym ≠ none := fun hc => ((hinv sym).mp hc) hmem
          rcases hgv : dictGet d sym with _ | w
          · exact absurd hgv hg
          · rw [freshSyms_cons_A, if_pos hn, if_pos hmem] at hk
            rw [varPass_cons_A, if_pos hn, hgv]
            exact ih d m seen hinv k s hk
        · have hg : dictGet d sym = none := (hinv sym).mpr hmem
          rw [freshSyms_cons_A, if_pos hn, if_neg hmem] at hk
          rw [varPass_cons_A, if_pos hn, hg]
          have hinv2 : ∀ x, dictGet (d ++ [(sym, m + 1)]) x = none ↔ x ∉ sym :: seen := by
            intro x
            rw [dictGet_append]
            rcases hx : dictGet d x with _ | w
            · have hxs : x ∉ seen := (hinv x).mp hx
              constructor
              · intro hnone
                simp only [dictGet, List.find?_singleton, decide_eq_true_eq] at hnone
                intro hmem2
                rcases List.mem_cons.mp hmem2 with rfl | hc
                · simp at hnone
                · exact hxs hc
              · intro hmem2
                have hne : x ≠ sym := fun he => hmem2 (he ▸ List.mem_cons_self _ _)
                have hsx : sym ≠ x := fun he => hne he.symm
                simp [dictGet, List.find?_singleton, hsx]
            · constructor
              · intro hc
                cases hc
              · intro hmem2
                exfalso
                apply hmem2
                apply List.mem_cons_of_mem
                by_contra hc
                rw [(hinv x).mpr hc] at hx
                cases hx
          rcases k with _ | k2
          · simp only [List.get?] at hk
            injection hk with hk
            have hd2 : dictGet (d ++ [(sym, m + 1)]) sym = some (m + 1) := by
              rw [dictGet_append, hg]
              simp [dictGet, List.find?_singleton]
            rw [← hk, dictGet_varPass rest (m + 1) hd2]
            norm_num
          · have hstep := ih (d ++ [(sym, m + 1)]) (m + 1) (sym :: seen) hinv2 k2 s hk
            rw [hstep]
            congr 1
            push_cast
            ring
      · rw [freshSyms_cons_A, if_neg hn] at hk
        rw [varPass_cons_A, if_neg hn]
        exact ih d m seen hinv k s hk
    · rw [freshSyms_cons_L] at hk
      rw [varPass_cons_L]
      exact ih d m seen hinv k s hk
    · rw [freshSyms_cons_C] at hk
      rw [varPass_cons_C]
      exact ih d m seen hinv k s hk

theorem toDecimal_isSome_iff {dict : List (String × Int)} {i : Instruction}
    {w : Option Nat} (h : toDecimal dict i = Except.ok w) :
    w.isSome = ! isLabelInstr i := by
  rcases i with s | s | ⟨dst, cmp, jmp⟩
  · simp only [toDecimal] at h
    rcases hp : Rust.parseI16S s with _ | v <;> rw [hp] at h
    · rcases hgg : dictGet dict s with _ | a <;> rw [hgg] at h
      · cases h
      · injection h with h
        subst h
        rfl
    · injection h with h
      subst h
      rfl
  · simp only [toDecimal] at h
    injection h with h
    subst h
    rfl
  · simp only [toDecimal] at h
    obtain ⟨c, hc, h⟩ := exceptBind_ok _ _ _ h
    obtain ⟨dd, hd, h⟩ := exceptBind_ok _ _ _ h
    obtain ⟨j, hj, h⟩ := exceptBind_ok _ _ _ h
    injection h with h
    subst h
    rfl

theorem emitAll_length {dict : List (String × Int)} (instrs : List Instruction) :
    ∀ outs, emitAll dict instrs = Except.ok outs → outs.length = countNonLabel instrs := by
  induction instrs with
  | nil =>
    intro outs h
    injection h with h
    subst h
    rfl
  | cons i rest ih =>
    intro outs h
    simp only [emitAll] at h
    obtain ⟨w, hw, h⟩ := exceptBind_ok _ _ _ h
    obtain ⟨tail, ht, h⟩ := exceptBind_ok _ _ _ h
    have hlen := ih tail ht
    have hsome := toDecimal_isSome_iff hw
    rcases w with _ | word
    · injection h with h
      subst h
      have hl : isLabelInstr i = true := by
        rcases hb : isLabelInstr i with _ | _
        · rw [hb] at hsome
          simp at hsome
        · rfl
      simp [countNonLabel, List.countP_cons, hl] at hlen ⊢
      omega
    · injection h with h
      subst h
      have hl : isLabelInstr i = false := by
        rcases hb : isLabelInstr i with _ | _
        · rfl
        · rw [hb] at hsome
          simp at hsome
      simp [countNonLabel, List.countP_cons, hl] at hlen ⊢
      omega

end Asm

theorem buildDict_preserves {k : String} {v : Int}
    (instrs : List Asm.Instruction) (h : Asm.dictGet Asm.predefDict k = some v) :
    Asm.dictGet (Asm.buildDict instrs) k = some v := by
  rw [Asm.buildDict]
  exact Asm.dictGet_varPass instrs 15 (Asm.dictGet_labelPass instrs 0 h)

/-- C9: A-instruction resolution of the assembler.  A decimal numeral whose
value fits in an `i16` (`≤ 32767`) is emitted directly as a word below
`2^15` (high bit 0, low 15 bits the value); label lines emit no word and the
output has exactly one word per non-label instruction; the symbol table built
by `run` maps the predefined symbols to their fixed addresses, binds a
`(L)` line (not previously bound) to the count of non-label instructions
before it, and assigns the remaining symbols, in order of first occurrence,
consecutive addresses from 16. -/
theorem C9_assembler_symbol_resolution (instrs : List Asm.Instruction) :
    (∀ (dict : List (String × Int)) (s : String), s.data ≠ [] →
      (∀ c ∈ s.data, c.isDigit = true) → Rust.digitsVal s.data ≤ 32767 →
      Asm.toDecimal dict (Asm.Instruction.A s) =
        Except.ok (some (Rust.digitsVal s.data)) ∧ Rust.digitsVal s.data < 32768) ∧
    (∀ (dict : List (String × Int)) (sym : String),
      Asm.toDecimal dict (Asm.Instruction.L sym) = Except.ok none) ∧
    (Asm.dictGet (Asm.buildDict instrs) "SP" = some 0 ∧
     Asm.dictGet (Asm.buildDict instrs) "LCL" = some 1 ∧
     Asm.dictGet (Asm.buildDict instrs) "ARG" = some 2 ∧
     Asm.dictGet (Asm.buildDict instrs) "THIS" = some 3 ∧
     Asm.dictGet (Asm.buildDict instrs) "THAT" = some 4 ∧
     Asm.dictGet (Asm.buildDict instrs) "SCREEN" = some 16384 ∧
     Asm.dictGet (Asm.buildDict instrs) "KBD" = some 24576 ∧
     (∀ n : Nat, n < 16 →
       Asm.dictGet (Asm.buildDict instrs) ("R" ++ Rust.natToString n) = some (n : Int))) ∧
    (∀ (pre post : List Asm.Instruction) (sym : String),
      instrs = pre ++ Asm.Instruction.L sym :: post →
      Asm.dictGet (Asm.labelPass Asm.predefDict 0 pre) sym = none →
      Asm.dictGet (Asm.buildDict instrs) sym = some ((Asm.countNonLabel pre : Int))) ∧
    (∀ (k : Nat) (s : String),
      (Asm.freshSyms (Asm.dictKeys (Asm.labelPass Asm.predefDict 0 instrs)) instrs).get? k =
        some s →
      Asm.dictGet (Asm.buildDict instrs) s = some (16 + (k : Int))) ∧
    (∀ outs, Asm.emitAll (Asm.buildDict instrs) instrs = Except.ok outs →
      outs.length = Asm.countNonLabel instrs) := by
  refine ⟨?_, ?_, ?_, ?_, ?_, ?_⟩
  · intro dict s hne hd hle
    have hp : Rust.parseI16S s = some ((Rust.digitsVal s.data : Int)) := by
      rw [Rust.parseI16S, parseI16?_digits hne hd, if_pos hle]
    have hmod : ((Rust.digitsVal s.data : Int)).emod 65536 = (Rust.digitsVal s.data : Int) :=
      Int.emod_eq_of_lt (by positivity) (by omega)
    constructor
    · simp [Asm.toDecimal, hp, hmod]
    · omega
  · intro dict sym
    rfl
  · refine ⟨buildDict_preserves instrs (by decide), buildDict_preserves instrs (by decide),
      buildDict_preserves instrs (by decide), buildDict_preserves instrs (by decide),
      buildDict_preserves instrs (by decide), buildDict_preserves instrs (by decide),
      buildDict_preserves instrs (by decide), ?_⟩
    intro n hn
    refine buildDict_preserves instrs ?_
    revert hn
    revert n
    decide
  · intro pre post sym hsplit hnone
    subst hsplit
    rw [Asm.buildDict, Asm.labelPass_append, Asm.labelPass_cons_L]
    have hins : Asm.dictInsertIfAbsent (Asm.labelPass Asm.predefDict 0 pre) sym
        (0 + (Asm.countNonLabel pre : Int)) =
        Asm.labelPass Asm.predefDict 0 pre ++ [(sym, 0 + (Asm.countNonLabel pre : Int))] := by
      rw [Asm.dictInsertIfAbsent, hnone]
    have hget : Asm.dictGet (Asm.labelPass Asm.predefDict 0 pre ++
        [(sym, 0 + (Asm.countNonLabel pre : Int))]) sym =
        some (0 + (Asm.countNonLabel pre : Int)) := by
      rw [Asm.dictGet_append, hnone]
      simp [Asm.dictGet, List.find?_singleton]
    rw [hins]
    have hstep := Asm.dictGet_varPass (pre ++ Asm.Instruction.L sym :: post) 15
      (Asm.dictGet_labelPass post (0 + (Asm.countNonLabel pre : Int)) hget)
    rw [hstep]
    norm_num
  · intro k s hk
    have := Asm.varPass_fresh instrs (Asm.labelPass Asm.predefDict 0 instrs) 15
      (Asm.dictKeys (Asm.labelPass Asm.predefDict 0 instrs))
      (fun x => Asm.dictGet_none_iff_not_mem_keys _ x) k s hk
    rw [Asm.buildDict, this]
    norm_num
  · exact Asm.emitAll_length instrs

/-- C9 (counterexample): the claim as stated says a decimal numeral `x` is
emitted with `x` in the low 15 bits; `@40000` is a decimal numeral, but
40000 does not parse as an `i16`, so the assembler treats it as a *symbol*
and emits the first free variable address 16 instead. -/
theorem C9_counterexample_large_numeral :
    Asm.assemble ["@40000"] = Except.ok [16] ∧ (16 : Nat) % 32768 ≠ 40000 % 32768 :=
  ⟨rfl, by norm_num⟩

/-- C9 (witness): the resolution theorem applied to the program
`@i, (LOOP), @LOOP, @i, @j`. -/
theorem C9_assembler_symbol_resolution_witness :
    Asm.dictGet (Asm.labelPass Asm.predefDict 0 [Asm.Instruction.A "i"]) "LOOP" = none ∧
    Asm.dictGet (Asm.buildDict [Asm.Instruction.A "i", Asm.Instruction.L "LOOP",
      Asm.Instruction.A "LOOP", Asm.Instruction.A "i", Asm.Instruction.A "j"]) "LOOP" =
      some ((Asm.countNonLabel [Asm.Instruction.A "i"] : Int)) ∧
    Asm.dictGet (Asm.buildDict [Asm.Instruction.A "i", Asm.Instruction.L "LOOP",
      Asm.Instruction.A "LOOP", Asm.Instruction.A "i", Asm.Instruction.A "j"]) "j" =
      some (16 + ((1 : Nat) : Int)) :=
  ⟨by decide,
   (C9_assembler_symbol_resolution _).2.2.2.1 [Asm.Instruction.A "i"]
     [Asm.Instruction.A "LOOP", Asm.Instruction.A "i", Asm.Instruction.A "j"] "LOOP"
     rfl (by decide),
   (C9_assembler_symbol_resolution _).2.2.2.2.1 1 "j" (by decide)⟩

/-- Reading a RAM cell just written returns the written value. -/
theorem wr_eq_read (ram : Int → Int) (a v : Int) : Mach.wr ram a v a = v := if_pos rfl

/-- Reading any other RAM cell is unaffected by a write. -/
theorem wr_ne_read (ram : Int → Int) (a v x : Int) (h : x ≠ a) :
    Mach.wr ram a v x = ram x := if_neg h

set_option maxHeartbeats 2000000 in
/-- C2: under the standard symbol bindings (SP=0, LCL=1, ARG=2, THIS=3,
THAT=4, two scratch variables `endframe`/`retaddr` at distinct free RAM
addresses) and a well-formed call frame (LCL ≥ 261, ARG ≤ LCL − 5,
ARG ≥ 256, SP ≥ LCL), the assembly emitted for `return` decodes fully,
and running it pops the top of stack into `*ARG`, sets SP = ARG + 1,
restores THAT, THIS, ARG, LCL from `*(endFrame − 1) … *(endFrame − 4)`
(endFrame being the entry value of LCL), and finally jumps to the saved
return address `*(endFrame − 5)`. -/
theorem C2_translate_return_semantics
    (env : String → Int) (st : Mach.State)
    (e r lcl arg sp : Int)
    (henv0 : env "SP" = 0) (henv1 : env "LCL" = 1) (henv2 : env "ARG" = 2)
    (henv3 : env "THIS" = 3) (henv4 : env "THAT" = 4)
    (henve : env "endframe" = e) (henvr : env "retaddr" = r)
    (hlcl : st.ram 1 = lcl) (hsp : st.ram 0 = sp) (harg : st.ram 2 = arg)
    (he1 : 5 ≤ e) (he2 : e < 256) (hr1 : 5 ≤ r) (hr2 : r < 256) (her : e ≠ r)
    (hl : 261 ≤ lcl) (ha1 : arg ≤ lcl - 5) (ha2 : 256 ≤ arg) (hs : lcl ≤ sp) :
    (Mach.decodeProgram env VMT.translateReturn).isSome = true ∧
    ∀ instrs, Mach.decodeProgram env VMT.translateReturn = some instrs →
      (Mach.runInstrs instrs st).2 = some (st.ram (lcl - 5)) ∧
      ((Mach.runInstrs instrs st).1).ram 0 = arg + 1 ∧
      ((Mach.runInstrs instrs st).1).ram 4 = st.ram (lcl - 1) ∧
      ((Mach.runInstrs instrs st).1).ram 3 = st.ram (lcl - 2) ∧
      ((Mach.runInstrs instrs st).1).ram 2 = st.ram (lcl - 3) ∧
      ((Mach.runInstrs instrs st).1).ram 1 = st.ram (lcl - 4) ∧
      ((Mach.runInstrs instrs st).1).ram arg = st.ram (sp - 1) := by
  have hdec : Mach.decodeProgram env VMT.translateReturn = some
      [Mach.Instr.A (env "LCL"),
       Mach.Instr.C ⟨false, true, false⟩ Mach.Comp.M none,
       Mach.Instr.A (env "endframe"),
       Mach.Instr.C ⟨false, false, true⟩ Mach.Comp.D none,
       Mach.Instr.A 5,
       Mach.Instr.C ⟨true, false, false⟩ Mach.Comp.DminusA none,
       Mach.Instr.C ⟨false, true, false⟩ Mach.Comp.M none,
       Mach.Instr.A (env "retaddr"),
       Mach.Instr.C ⟨false, false, true⟩ Mach.Comp.D none,
       Mach.Instr.A (env "SP"),
       Mach.Instr.C ⟨true, false, true⟩ Mach.Comp.Mminus1 none,
       Mach.Instr.C ⟨false, true, false⟩ Mach.Comp.M none,
       Mach.Instr.A (env "ARG"),
       Mach.Instr.C ⟨true, false, false⟩ Mach.Comp.M none,
       Mach.Instr.C ⟨false, false, true⟩ Mach.Comp.D none,
       Mach.Instr.A (env "ARG"),
       Mach.Instr.C ⟨false, true, false⟩ Mach.Comp.Mplus1 none,
       Mach.Instr.A (env "SP"),
       Mach.Instr.C ⟨false, false, true⟩ Mach.Comp.D none,
       Mach.Instr.A (env "endframe"),
       Mach.Instr.C ⟨true, false, true⟩ Mach.Comp.Mminus1 none,
       Mach.Instr.C ⟨false, true, false⟩ Mach.Comp.M none,
       Mach.Instr.A (env "THAT"),
       Mach.Instr.C ⟨false, false, true⟩ Mach.Comp.D none,
       Mach.Instr.A (env "endframe"),
       Mach.Instr.C ⟨true, false, true⟩ Mach.Comp.Mminus1 none,
       Mach.Instr.C ⟨false, true, false⟩ Mach.Comp.M none,
       Mach.Instr.A (env "THIS"),
       Mach.Instr.C ⟨false, false, true⟩ Mach.Comp.D none,
       Mach.Instr.A (env "endframe"),
       Mach.Instr.C ⟨true, false, true⟩ Mach.Comp.Mminus1 none,
       Mach.Instr.C ⟨false, true, false⟩ Mach.Comp.M none,
       Mach.Instr.A (env "ARG"),
       Mach.Instr.C ⟨false, false, true⟩ Mach.Comp.D none,
       Mach.Instr.A (env "endframe"),
       Mach.Instr.C ⟨true, false, true⟩ Mach.Comp.Mminus1 none,
       Mach.Instr.C ⟨false, true, false⟩ Mach.Comp.M none,
       Mach.Instr.A (env "LCL"),
       Mach.Instr.C ⟨false, false, true⟩ Mach.Comp.D none,
       Mach.Instr.A (env "retaddr"),
       Mach.Instr.C ⟨true, false, false⟩ Mach.Comp.M none,
       Mach.Instr.C ⟨false, false, false⟩ Mach.Comp.zero (some Mach.Jump.JMP)] := rfl
  refine ⟨by rw [hdec]; rfl, ?_⟩
  intro instrs hinstr
  rw [hdec] at hinstr
  injection hinstr with hinstr
  subst hinstr
  rw [henv0, henv1, henv2, henv3, henv4, henve, henvr]
  refine ⟨?_, ?_, ?_, ?_, ?_, ?_, ?_⟩ <;>
    simp (disch := omega) [Mach.runInstrs, Mach.execInstr, Mach.evalComp, Mach.condHolds,
      wr_eq_read, wr_ne_read, hlcl, hsp, harg] <;>
    (congr 1; ring)

/-- C2 (witness): the return semantics at the concrete environment `envStd`
and state `stRet` (SP=305, LCL=300, ARG=290). -/
theorem C2_translate_return_semantics_witness :
    (Mach.decodeProgram Mach.envStd VMT.translateReturn).isSome = true ∧
    ∀ instrs, Mach.decodeProgram Mach.envStd VMT.translateReturn = some instrs →
      (Mach.runInstrs instrs Mach.stRet).2 = some (Mach.stRet.ram (300 - 5)) ∧
      ((Mach.runInstrs instrs Mach.stRet).1).ram 0 = 290 + 1 ∧
      ((Mach.runInstrs instrs Mach.stRet).1).ram 4 = Mach.stRet.ram (300 - 1) ∧
      ((Mach.runInstrs instrs Mach.stRet).1).ram 3 = Mach.stRet.ram (300 - 2) ∧
      ((Mach.runInstrs instrs Mach.stRet).1).ram 2 = Mach.stRet.ram (300 - 3) ∧
      ((Mach.runInstrs instrs Mach.stRet).1).ram 1 = Mach.stRet.ram (300 - 4) ∧
      ((Mach.runInstrs instrs Mach.stRet).1).ram 290 = Mach.stRet.ram (305 - 1) :=
  C2_translate_return_semantics Mach.envStd Mach.stRet 16 17 300 290 305
    rfl rfl rfl rfl rfl rfl rfl (by decide) (by decide) (by decide)
    (by decide) (by decide) (by decide) (by decide) (by decide)
    (by decide) (by decide) (by decide) (by decide)

/-- `List.dropWhile` is the identity when no element satisfies the predicate. -/
theorem dropWhile_false_of (p : Char → Bool) (l : List Char)
    (h : ∀ c ∈ l, p c = false) : l.dropWhile p = l := by
  cases l with
  | nil => rfl
  | cons c rest => simp [List.dropWhile_cons, h c (List.mem_cons_self c rest)]

/-- `str::trim` is the identity on a line without whitespace characters. -/
theorem trimChars_of_clean (l : List Char)
    (h : ∀ c ∈ l, c.isWhitespace = false) : Rust.trimChars l = l := by
  rw [Rust.trimChars, dropWhile_false_of _ _ h, dropWhile_false_of, List.reverse_reverse]
  intro c hc
  exact h c (List.mem_reverse.mp hc)

/-- A line without any slash has no `//` occurrence. -/
theorem splitOnceSlashes_of_clean (l : List Char)
    (h : ∀ c ∈ l, c ≠ '/') : Rust.splitOnceSlashes l = none := by
  induction l with
  | nil => rfl
  | cons c rest ih =>
    cases rest with
    | nil => rfl
    | cons c2 r2 =>
      have h1 : c ≠ '/' := h c (List.mem_cons_self c _)
      have h2 := ih (fun x hx => h x (List.mem_cons_of_mem c hx))
      simp [Rust.splitOnceSlashes, h1, h2]

/-- Comment stripping is the identity on a line without any slash. -/
theorem stripLineComment_of_clean (l : List Char)
    (h : ∀ c ∈ l, c ≠ '/') : Rust.stripLineComment l = l := by
  rw [Rust.stripLineComment, splitOnceSlashes_of_clean l h]

/-- A clean `@symbol` line parses to the A-instruction for that symbol. -/
theorem lineToInstruction_at_symbol (lbl : String)
    (h : ∀ c ∈ lbl.data, c.isWhitespace = false ∧ c ≠ '/') :
    Asm.lineToInstruction ("@" ++ lbl) = some (Asm.Instruction.A lbl) := by
  have hd : ("@" ++ lbl).data = '@' :: lbl.data := by
    rw [String.data_append]; rfl
  have hc1 : ∀ c ∈ '@' :: lbl.data, c ≠ '/' := by
    intro c hc
    rcases List.mem_cons.mp hc with rfl | hc
    · decide
    · exact (h c hc).2
  have hc2 : ∀ c ∈ '@' :: lbl.data, c.isWhitespace = false := by
    intro c hc
    rcases List.mem_cons.mp hc with rfl | hc
    · decide
    · exact (h c hc).1
  simp only [Asm.lineToInstruction, hd, stripLineComment_of_clean _ hc1,
    trimChars_of_clean _ hc2]
  simp [List.isPrefixOf]

/-- A clean `(label)` line parses to the L-instruction for that label. -/
theorem lineToInstruction_at_label (lbl : String)
    (h : ∀ c ∈ lbl.data, c.isWhitespace = false ∧ c ≠ '/') :
    Asm.lineToInstruction ("(" ++ lbl ++ ")") = some (Asm.Instruction.L lbl) := by
  have hd : ("(" ++ lbl ++ ")").data = '(' :: (lbl.data ++ [')']) := by
    rw [String.data_append, String.data_append]; rfl
  have hc1 : ∀ c ∈ '(' :: (lbl.data ++ [')']), c ≠ '/' := by
    intro c hc
    rcases List.mem_cons.mp hc with rfl | hc
    · decide
    · rcases List.mem_append.mp hc with hc | hc
      · exact (h c hc).2
      · simp at hc; subst hc; decide
  have hc2 : ∀ c ∈ '(' :: (lbl.data ++ [')']), c.isWhitespace = false := by
    intro c hc
    rcases List.mem_cons.mp hc with rfl | hc
    · decide
    · rcases List.mem_append.mp hc with hc | hc
      · exact (h c hc).1
      · simp at hc; subst hc; decide
  have hlast : ('(' :: (lbl.data ++ [')'])).getLast? = some ')' := by
    rw [← List.cons_append, List.getLast?_concat]
  have htake : ((lbl.data ++ [')']).take (('(' :: (lbl.data ++ [')'])).length - 2)) =
      lbl.data := by
    simp
  simp only [Asm.lineToInstruction, hd, stripLineComment_of_clean _ hc1,
    trimChars_of_clean _ hc2]
  simp [List.isPrefixOf, hlast, htake]

/-- A clean non-numeric `@symbol` line decodes to an A-instruction holding the
symbol's address from the environment. -/
theorem decodeLine_at_symbol (env : String → Int) (lbl : String)
    (h : ∀ c ∈ lbl.data, c.isWhitespace = false ∧ c ≠ '/')
    (hp : Rust.parseI16S lbl = none) :
    Mach.decodeLine env ("@" ++ lbl) = some (Mach.Instr.A (env lbl)) := by
  rw [Mach.decodeLine, lineToInstruction_at_symbol lbl h]
  simp [Mach.decodeInstr, hp]

/-- A clean `(label)` line decodes to the no-op label instruction. -/
theorem decodeLine_at_label (env : String → Int) (lbl : String)
    (h : ∀ c ∈ lbl.data, c.isWhitespace = false ∧ c ≠ '/') :
    Mach.decodeLine env ("(" ++ lbl ++ ")") = some Mach.Instr.L := by
  rw [Mach.decodeLine, lineToInstruction_at_label lbl h]
  rfl

/-- Decimal digit characters are not whitespace and not a slash. -/
theorem digitChar_clean : ∀ d, d < 10 →
    (Nat.digitChar d).isWhitespace = false ∧ Nat.digitChar d ≠ '/' := by decide

/-- Every character of a printed natural number is clean. -/
theorem natToChars_clean (n : Nat) :
    ∀ c ∈ Rust.natToChars n, c.isWhitespace = false ∧ c ≠ '/' := by
  induction n using Nat.strong_induction_on with
  | _ n ih =>
    rw [Rust.natToChars_eq]
    by_cases h : n < 10
    · simp only [h, if_true, List.mem_singleton]
      rintro c rfl
      exact digitChar_clean n h
    · simp only [h, if_false, List.mem_append, List.mem_singleton]
      rintro c (hc | rfl)
      · exact ih (n / 10) (Nat.div_lt_self (by omega) (by norm_num)) c hc
      · exact digitChar_clean _ (Nat.mod_lt n (by norm_num))

/-- An `@n` line for an in-range numeral decodes to `A n`. -/
theorem decodeLine_at_num (env : String → Int) (n : Int) (h0 : 0 ≤ n) (h1 : n ≤ 32767) :
    Mach.decodeLine env ("@" ++ Rust.intToString n) = some (Mach.Instr.A n) := by
  have hi : Rust.intToString n = Rust.natToString n.toNat := by
    rw [Rust.intToString, if_neg (by omega)]
  have hclean : ∀ c ∈ (Rust.intToString n).data, c.isWhitespace = false ∧ c ≠ '/' := by
    rw [hi]
    exact natToChars_clean n.toNat
  have hp : Rust.parseI16S (Rust.intToString n) = some n :=
    Rust.parseI16S_intToString (by omega) h1
  rw [Mach.decodeLine, lineToInstruction_at_symbol _ hclean]
  simp [Mach.decodeInstr, hp]

/-- Decoding the empty program. -/
theorem decodeProgram_nil (env : String → Int) : Mach.decodeProgram env [] = some [] := rfl

/-- Decoding a program line by line. -/
theorem decodeProgram_cons (env : String → Int) (l : String) (ls : List String) :
    Mach.decodeProgram env (l :: ls) =
      (Mach.decodeLine env l).bind
        (fun i => (Mach.decodeProgram env ls).map (fun is => i :: is)) := by
  rw [Mach.decodeProgram, Mach.decodeProgram, ← List.mapM'_eq_mapM,
    ← List.mapM'_eq_mapM, List.mapM']
  cases hfa : Mach.decodeLine env l <;>
    cases hfl : List.mapM' (Mach.decodeLine env) ls <;>
    simp [hfa, hfl, Option.bind]

set_option maxHeartbeats 4000000 in
/-- C1: `translate` on `call f n` emits `translate_call` at the return label
`<fileStem>$ret.<k>` for the current per-file counter `k` and increments the
counter; distinct counters give distinct return labels; the emitted block ends
by defining the return label; and, decoded under the standard symbol bindings
and run from a state with SP = sp ≥ 5, it pushes five frame words in order —
the return-label address, then LCL, ARG, THIS, THAT — sets ARG = SP − 5 − n,
sets LCL = SP (= sp + 5), and jumps to `f`. -/
theorem C1_translate_call_frame
    (env : String → Int) (st : Mach.State)
    (lbl f stem : String) (n sp : Int)
    (hlblc : ∀ c ∈ lbl.data, c.isWhitespace = false ∧ c ≠ '/')
    (hlblp : Rust.parseI16S lbl = none)
    (hfc : ∀ c ∈ f.data, c.isWhitespace = false ∧ c ≠ '/')
    (hfp : Rust.parseI16S f = none)
    (hn0 : 0 ≤ n) (hn1 : n ≤ 32767)
    (henv0 : env "SP" = 0) (henv1 : env "LCL" = 1) (henv2 : env "ARG" = 2)
    (henv3 : env "THIS" = 3) (henv4 : env "THAT" = 4)
    (hsp : st.ram 0 = sp) (hsp5 : 5 ≤ sp) :
    (∀ s : VMT.Hack, VMT.translate s (VMT.Command.call f n) =
      Except.ok (some (VMT.translateCall
          (VMT.retLabel s.staticIdentifier s.funcCounter) f n),
        { s with funcCounter := s.funcCounter + 1 })) ∧
    (VMT.translateCall lbl f n).getLast? = some ("(" ++ lbl ++ ")") ∧
    (∀ j k : Nat, VMT.retLabel stem j = VMT.retLabel stem k → j = k) ∧
    ∀ instrs, Mach.decodeProgram env (VMT.translateCall lbl f n) = some instrs →
      (Mach.runInstrs instrs st).2 = some (env f) ∧
      ((Mach.runInstrs instrs st).1).ram sp = env lbl ∧
      ((Mach.runInstrs instrs st).1).ram (sp + 1) = st.ram 1 ∧
      ((Mach.runInstrs instrs st).1).ram (sp + 2) = st.ram 2 ∧
      ((Mach.runInstrs instrs st).1).ram (sp + 3) = st.ram 3 ∧
      ((Mach.runInstrs instrs st).1).ram (sp + 4) = st.ram 4 ∧
      ((Mach.runInstrs instrs st).1).ram 2 = sp + 5 - 5 - n ∧
      ((Mach.runInstrs instrs st).1).ram 1 = sp + 5 ∧
      ((Mach.runInstrs instrs st).1).ram 0 = sp + 5 := by
  refine ⟨fun s => rfl, rfl, ?_, ?_⟩
  · intro j k hjk
    apply Rust.natToString_injective
    have hdt := congrArg String.data hjk
    simp only [VMT.retLabel, String.data_append] at hdt
    have h1 := List.append_cancel_left hdt
    exact String.ext h1
  · have hdec : Mach.decodeProgram env (VMT.translateCall lbl f n) = some
        [Mach.Instr.A (env lbl),
         Mach.Instr.C ⟨false, true, false⟩ Mach.Comp.A none,
         Mach.Instr.A (env "SP"),
         Mach.Instr.C ⟨true, false, false⟩ Mach.Comp.M none,
         Mach.Instr.C ⟨false, false, true⟩ Mach.Comp.D none,
         Mach.Instr.A (env "SP"),
         Mach.Instr.C ⟨false, false, true⟩ Mach.Comp.Mplus1 none,
         Mach.Instr.A (env "LCL"),
         Mach.Instr.C ⟨false, true, false⟩ Mach.Comp.M none,
         Mach.Instr.A (env "SP"),
         Mach.Instr.C ⟨true, false, false⟩ Mach.Comp.M none,
         Mach.Instr.C ⟨false, false, true⟩ Mach.Comp.D none,
         Mach.Instr.A (env "SP"),
         Mach.Instr.C ⟨false, false, true⟩ Mach.Comp.Mplus1 none,
         Mach.Instr.A (env "ARG"),
         Mach.Instr.C ⟨false, true, false⟩ Mach.Comp.M none,
         Mach.Instr.A (env "SP"),
         Mach.Instr.C ⟨true, false, false⟩ Mach.Comp.M none,
         Mach.Instr.C ⟨false, false, true⟩ Mach.Comp.D none,
         Mach.Instr.A (env "SP"),
         Mach.Instr.C ⟨false, false, true⟩ Mach.Comp.Mplus1 none,
         Mach.Instr.A (env "THIS"),
         Mach.Instr.C ⟨false, true, false⟩ Mach.Comp.M none,
         Mach.Instr.A (env "SP"),
         Mach.Instr.C ⟨true, false, false⟩ Mach.Comp.M none,
         Mach.Instr.C ⟨false, false, true⟩ Mach.Comp.D none,
         Mach.Instr.A (env "SP"),
         Mach.Instr.C ⟨false, false, true⟩ Mach.Comp.Mplus1 none,
         Mach.Instr.A (env "THAT"),
         Mach.Instr.C ⟨false, true, false⟩ Mach.Comp.M none,
         Mach.Instr.A (env "SP"),
         Mach.Instr.C ⟨true, false, false⟩ Mach.Comp.M none,
         Mach.Instr.C ⟨false, false, true⟩ Mach.Comp.D none,
         Mach.Instr.A (env "SP"),
         Mach.Instr.C ⟨false, false, true⟩ Mach.Comp.Mplus1 none,
         Mach.Instr.A (env "SP"),
         Mach.Instr.C ⟨false, true, false⟩ Mach.Comp.M none,
         Mach.Instr.A 5,
         Mach.Instr.C ⟨false, true, false⟩ Mach.Comp.DminusA none,
         Mach.Instr.A n,
         Mach.Instr.C ⟨false, true, false⟩ Mach.Comp.DminusA none,
         Mach.Instr.A (env "ARG"),
         Mach.Instr.C ⟨false, false, true⟩ Mach.Comp.D none,
         Mach.Instr.A (env "SP"),
         Mach.Instr.C ⟨false, true, false⟩ Mach.Comp.M none,
         Mach.Instr.A (env "LCL"),
         Mach.Instr.C ⟨false, false, true⟩ Mach.Comp.D none,
         Mach.Instr.A (env f),
         Mach.Instr.C ⟨false, false, false⟩ Mach.Comp.zero (some Mach.Jump.JMP),
         Mach.Instr.L] := by
      have e1 : Mach.decodeLine env ("@" ++ lbl) = some (Mach.Instr.A (env lbl)) :=
        decodeLine_at_symbol env lbl hlblc hlblp
      have e2 : Mach.decodeLine env ("@" ++ f) = some (Mach.Instr.A (env f)) :=
        decodeLine_at_symbol env f hfc hfp
      have e3 : Mach.decodeLine env ("@" ++ Rust.intToString n) = some (Mach.Instr.A n) :=
        decodeLine_at_num env n hn0 hn1
      have e4 : Mach.decodeLine env ("(" ++ lbl ++ ")") = some Mach.Instr.L :=
        decodeLine_at_label env lbl hlblc
      have d1 : Mach.decodeLine env "D=A" =
        some (Mach.Instr.C ⟨false, true, false⟩ Mach.Comp.A none) := rfl
      have d2 : Mach.decodeLine env "@SP" = some (Mach.Instr.A (env "SP")) := rfl
      have d3 : Mach.decodeLine env "A=M" =
        some (Mach.Instr.C ⟨true, false, false⟩ Mach.Comp.M none) := rfl
      have d4 : Mach.decodeLine env "M=D" =
        some (Mach.Instr.C ⟨false, false, true⟩ Mach.Comp.D none) := rfl
      have d5 : Mach.decodeLine env "M=M+1" =
        some (Mach.Instr.C ⟨false, false, true⟩ Mach.Comp.Mplus1 none) := rfl
      have d6 : Mach.decodeLine env "@LCL" = some (Mach.Instr.A (env "LCL")) := rfl
      have d7 : Mach.decodeLine env "D=M" =
        some (Mach.Instr.C ⟨false, true, false⟩ Mach.Comp.M none) := rfl
      have d8 : Mach.decodeLine env "@ARG" = some (Mach.Instr.A (env "ARG")) := rfl
      have d9 : Mach.decodeLine env "@THIS" = some (Mach.Instr.A (env "THIS")) := rfl
      have d10 : Mach.decodeLine env "@THAT" = some (Mach.Instr.A (env "THAT")) := rfl
      have d11 : Mach.decodeLine env "@5" = some (Mach.Instr.A 5) := rfl
      have d12 : Mach.decodeLine env "D=D-A" =
        some (Mach.Instr.C ⟨false, true, false⟩ Mach.Comp.DminusA none) := rfl
      have d13 : Mach.decodeLine env "0;JMP" =
        some (Mach.Instr.C ⟨false, false, false⟩ Mach.Comp.zero (some Mach.Jump.JMP)) := rfl
      simp only [VMT.translateCall, decodeProgram_cons, decodeProgram_nil,
        e1, e2, e3, e4, d1, d2, d3, d4, d5, d6, d7, d8, d9, d10, d11, d12, d13,
        Option.bind_some, Option.map_some, Option.map_none, Option.some_bind]
      rfl
    intro instrs hinstr
    rw [hdec] at hinstr
    injection hinstr with hinstr
    subst hinstr
    rw [henv0, henv1, henv2, henv3, henv4]
    refine ⟨?_, ?_, ?_, ?_, ?_, ?_, ?_, ?_, ?_⟩ <;>
      simp (disch := omega) [Mach.runInstrs, Mach.execInstr, Mach.evalComp, Mach.condHolds,
        wr_eq_read, wr_ne_read, hsp] <;>
      try omega
    all_goals (ring_nf; simp (disch := omega) [wr_eq_read, wr_ne_read])

/-- C1 (witness): the call-frame theorem at the concrete label `Foo$ret.0`,
function `Bar.baz`, 2 arguments, environment `envStd` and state `stRet`. -/
theorem C1_translate_call_frame_witness :
    ((∀ s : VMT.Hack, VMT.translate s (VMT.Command.call "Bar.baz" 2) =
      Except.ok (some (VMT.translateCall
          (VMT.retLabel s.staticIdentifier s.funcCounter) "Bar.baz" 2),
        { s with funcCounter := s.funcCounter + 1 })) ∧
    (VMT.translateCall "Foo$ret.0" "Bar.baz" 2).getLast? =
      some ("(" ++ "Foo$ret.0" ++ ")") ∧
    (∀ j k : Nat, VMT.retLabel "Foo" j = VMT.retLabel "Foo" k → j = k) ∧
    ∀ instrs,
      Mach.decodeProgram Mach.envStd (VMT.translateCall "Foo$ret.0" "Bar.baz" 2) =
        some instrs →
      (Mach.runInstrs instrs Mach.stRet).2 = some (Mach.envStd "Bar.baz") ∧
      ((Mach.runInstrs instrs Mach.stRet).1).ram 305 = Mach.envStd "Foo$ret.0" ∧
      ((Mach.runInstrs instrs Mach.stRet).1).ram (305 + 1) = Mach.stRet.ram 1 ∧
      ((Mach.runInstrs instrs Mach.stRet).1).ram (305 + 2) = Mach.stRet.ram 2 ∧
      ((Mach.runInstrs instrs Mach.stRet).1).ram (305 + 3) = Mach.stRet.ram 3 ∧
      ((Mach.runInstrs instrs Mach.stRet).1).ram (305 + 4) = Mach.stRet.ram 4 ∧
      ((Mach.runInstrs instrs Mach.stRet).1).ram 2 = 305 + 5 - 5 - 2 ∧
      ((Mach.runInstrs instrs Mach.stRet).1).ram 1 = 305 + 5 ∧
      ((Mach.runInstrs instrs Mach.stRet).1).ram 0 = 305 + 5) :=
  C1_translate_call_frame Mach.envStd Mach.stRet "Foo$ret.0" "Bar.baz" "Foo" 2 305
    (by decide) (by decide) (by decide) (by decide) (by decide) (by decide)
    rfl rfl rfl rfl rfl rfl (by decide)

theorem compLabel_inj (pref : String) {j k : Nat}
    (h : VMT.compLabel pref j = VMT.compLabel pref k) : j = k := by
  apply Rust.natToString_injective
  have hdt := congrArg String.data h
  simp only [VMT.compLabel, String.data_append] at hdt
  have h1 := List.append_cancel_left hdt
  exact String.ext h1

theorem compLabel_getLast_digit (pref : String) (k : Nat) :
    ∃ d, (VMT.compLabel pref k).data.getLast? = some d ∧ d.isDigit = true := by
  have hne : Rust.natToChars k ≠ [] := Rust.natToChars_ne_nil k
  have hdt : (VMT.compLabel pref k).data =
      (pref.data ++ "_".data) ++ Rust.natToChars k := by
    simp [VMT.compLabel, String.data_append, Rust.natToString]
  refine ⟨(Rust.natToChars k).getLast hne, ?_, ?_⟩
  · rw [hdt, List.getLast?_append]
    · exact (List.getLast?_eq_getLast _ hne).symm ▸ rfl
  · exact Rust.natToChars_all_digit k _ (List.getLast_mem hne)

theorem compLabel_ne_end (pref pref2 : String) (j k : Nat) :
    VMT.compLabel pref j ≠ VMT.compLabel pref2 k ++ "_END" := by
  intro h
  obtain ⟨d, hd, hdig⟩ := compLabel_getLast_digit pref j
  have hdt := congrArg (fun s => s.data.getLast?) h
  simp only [String.data_append] at hdt
  rw [List.getLast?_append] at hdt
  rw [hd] at hdt
  have hD : d = 'D' := by
    have h2 : some d = some 'D' := by rw [hdt]; rfl
    exact Option.some.inj h2
  subst hD
  exact absurd hdig (by decide)

theorem compLabel_end_inj (pref : String) {j k : Nat}
    (h : VMT.compLabel pref j ++ "_END" = VMT.compLabel pref k ++ "_END") : j = k := by
  apply compLabel_inj pref
  apply String.ext
  have hdt := congrArg String.data h
  simp only [String.data_append] at hdt
  exact List.append_cancel_right hdt

theorem compLabelsList_succ (pref : String) (n : Nat) :
    VMT.compLabelsList pref (n + 1) =
      VMT.compLabelsList pref n ++ VMT.compLabelPair pref n := by
  rw [VMT.compLabelsList, VMT.compLabelsList, List.range_succ, List.flatMap_append]
  simp [VMT.compLabelPair]

theorem mem_compLabelsList {pref : String} {n : Nat} {c : String} :
    c ∈ VMT.compLabelsList pref n ↔
      ∃ j, j < n ∧ (c = VMT.compLabel pref j ∨ c = VMT.compLabel pref j ++ "_END") := by
  simp only [VMT.compLabelsList, VMT.compLabelPair, List.mem_flatMap, List.mem_range]
  constructor
  · rintro ⟨j, hj, hc⟩
    rcases List.mem_cons.mp hc with rfl | hc
    · exact ⟨j, hj, Or.inl rfl⟩
    · rcases List.mem_cons.mp hc with rfl | hc
      · exact ⟨j, hj, Or.inr rfl⟩
      · simp at hc
  · rintro ⟨j, hj, rfl | rfl⟩
    · exact ⟨j, hj, List.mem_cons_self _ _⟩
    · exact ⟨j, hj, List.mem_cons_of_mem _ (List.mem_cons_self _ _)⟩

theorem compLabelsList_nodup (pref : String) (n : Nat) :
    (VMT.compLabelsList pref n).Nodup := by
  induction n with
  | zero => simp [VMT.compLabelsList]
  | succ n ih =>
    rw [compLabelsList_succ]
    refine List.Nodup.append ih ?_ ?_
    · refine List.nodup_cons.mpr ⟨?_, List.nodup_singleton _⟩
      intro hmem
      rcases List.mem_singleton.mp hmem with h
      exact compLabel_ne_end pref pref n n h
    · intro a ha hb
      obtain ⟨j, hj, hcase⟩ := mem_compLabelsList.mp ha
      have hjn : j ≠ n := Nat.ne_of_lt hj
      rcases List.mem_cons.mp hb with rfl | hb
      · rcases hcase with h | h
        · exact hjn (compLabel_inj pref h).symm
        · exact compLabel_ne_end pref pref n j h
      · rcases List.mem_singleton.mp hb with rfl
        rcases hcase with h | h
        · exact compLabel_ne_end pref pref j n h.symm
        · exact hjn (compLabel_end_inj pref h).symm

theorem compLabel_clean (pref : String) (k : Nat)
    (h : ∀ c ∈ pref.data, c.isWhitespace = false ∧ c ≠ '/') :
    ∀ c ∈ (VMT.compLabel pref k).data, c.isWhitespace = false ∧ c ≠ '/' := by
  intro c hc
  simp only [VMT.compLabel, String.data_append] at hc
  rcases List.mem_append.mp hc with hc | hc
  · rcases List.mem_append.mp hc with hc | hc
    · exact h c hc
    · rcases List.mem_singleton.mp hc with rfl
      exact ⟨by decide, by decide⟩
  · exact natToChars_clean k c hc

theorem compLabelEnd_clean (pref : String) (k : Nat)
    (h : ∀ c ∈ pref.data, c.isWhitespace = false ∧ c ≠ '/') :
    ∀ c ∈ (VMT.compLabel pref k ++ "_END").data, c.isWhitespace = false ∧ c ≠ '/' := by
  intro c hc
  rw [String.data_append] at hc
  rcases List.mem_append.mp hc with hc | hc
  · exact compLabel_clean pref k h c hc
  · fin_cases hc <;> exact ⟨by decide, by decide⟩

theorem underscore_mem_compLabel (pref : String) (k : Nat) :
    '_' ∈ (VMT.compLabel pref k).data := by
  simp only [VMT.compLabel, String.data_append]
  exact List.mem_append.mpr (Or.inl (List.mem_append.mpr (Or.inr (List.mem_singleton.mpr rfl))))

theorem compLabel_parse_none (pref : String) (k : Nat) :
    Rust.parseI16S (VMT.compLabel pref k) = none :=
  Rust.parseI16?_none_of_nondigit (underscore_mem_compLabel pref k)
    (by decide) (by decide) (by decide)

theorem compLabelEnd_parse_none (pref : String) (k : Nat) :
    Rust.parseI16S (VMT.compLabel pref k ++ "_END") = none := by
  apply Rust.parseI16?_none_of_nondigit (c := '_')
  · rw [String.data_append]
    exact List.mem_append.mpr (Or.inl (underscore_mem_compLabel pref k))
  · decide
  · decide
  · decide

theorem decode_compLogic (env : String → Int) (pref : String) (k : Nat) (js : String)
    (jd : Mach.Jump)
    (hpref : ∀ c ∈ pref.data, c.isWhitespace = false ∧ c ≠ '/')
    (hjs : Mach.decodeLine env ("D;" ++ js) =
      some (Mach.Instr.C ⟨false, false, false⟩ Mach.Comp.D (some jd))) :
    Mach.decodeProgram env (VMT.compLogic k pref js) = some
      [Mach.Instr.A (env "SP"),
       Mach.Instr.C ⟨false, false, true⟩ Mach.Comp.Mminus1 none,
       Mach.Instr.C ⟨true, false, false⟩ Mach.Comp.M none,
       Mach.Instr.C ⟨false, true, false⟩ Mach.Comp.M none,
       Mach.Instr.C ⟨true, false, false⟩ Mach.Comp.Aminus1 none,
       Mach.Instr.C ⟨false, true, false⟩ Mach.Comp.MminusD none,
       Mach.Instr.A (env (VMT.compLabel pref k)),
       Mach.Instr.C ⟨false, false, false⟩ Mach.Comp.D (some jd),
       Mach.Instr.A (env "SP"),
       Mach.Instr.C ⟨true, false, false⟩ Mach.Comp.Mminus1 none,
       Mach.Instr.C ⟨false, false, true⟩ Mach.Comp.zero none,
       Mach.Instr.A (env (VMT.compLabel pref k ++ "_END")),
       Mach.Instr.C ⟨false, false, false⟩ Mach.Comp.zero (some Mach.Jump.JMP),
       Mach.Instr.L,
       Mach.Instr.A (env "SP"),
       Mach.Instr.C ⟨true, false, false⟩ Mach.Comp.Mminus1 none,
       Mach.Instr.C ⟨false, false, true⟩ Mach.Comp.negOne none,
       Mach.Instr.L] := by
  have e1 : Mach.decodeLine env ("@" ++ VMT.compLabel pref k) =
      some (Mach.Instr.A (env (VMT.compLabel pref k))) :=
    decodeLine_at_symbol env _ (compLabel_clean pref k hpref) (compLabel_parse_none pref k)
  have e2 : Mach.decodeLine env ("@" ++ VMT.compLabel pref k ++ "_END") =
      some (Mach.Instr.A (env (VMT.compLabel pref k ++ "_END"))) := by
    have hassoc : "@" ++ VMT.compLabel pref k ++ "_END" =
        "@" ++ (VMT.compLabel pref k ++ "_END") := by
      rw [String.append_assoc]
    rw [hassoc]
    exact decodeLine_at_symbol env _ (compLabelEnd_clean pref k hpref)
      (compLabelEnd_parse_none pref k)
  have e3 : Mach.decodeLine env ("(" ++ VMT.compLabel pref k ++ ")") =
      some Mach.Instr.L :=
    decodeLine_at_label env _ (compLabel_clean pref k hpref)
  have e4 : Mach.decodeLine env ("(" ++ VMT.compLabel pref k ++ "_END)") =
      some Mach.Instr.L := by
    have hassoc : "(" ++ VMT.compLabel pref k ++ "_END)" =
        "(" ++ (VMT.compLabel pref k ++ "_END") ++ ")" := by
      apply String.ext
      simp [String.data_append]
    rw [hassoc]
    exact decodeLine_at_label env _ (compLabelEnd_clean pref k hpref)
  have d1 : Mach.decodeLine env "@SP" = some (Mach.Instr.A (env "SP")) := rfl
  have d2 : Mach.decodeLine env "M=M-1" =
    some (Mach.Instr.C ⟨false, false, true⟩ Mach.Comp.Mminus1 none) := rfl
  have d3 : Mach.decodeLine env "A=M" =
    some (Mach.Instr.C ⟨true, false, false⟩ Mach.Comp.M none) := rfl
  have d4 : Mach.decodeLine env "D=M" =
    some (Mach.Instr.C ⟨false, true, false⟩ Mach.Comp.M none) := rfl
  have d5 : Mach.decodeLine env "A=A-1" =
    some (Mach.Instr.C ⟨true, false, false⟩ Mach.Comp.Aminus1 none) := rfl
  have d6 : Mach.decodeLine env "D=M-D" =
    some (Mach.Instr.C ⟨false, true, false⟩ Mach.Comp.MminusD none) := rfl
  have d7 : Mach.decodeLine env "A=M-1" =
    some (Mach.Instr.C ⟨true, false, false⟩ Mach.Comp.Mminus1 none) := rfl
  have d8 : Mach.decodeLine env "M=0" =
    some (Mach.Instr.C ⟨false, false, true⟩ Mach.Comp.zero none) := rfl
  have d9 : Mach.decodeLine env "M=-1" =
    some (Mach.Instr.C ⟨false, false, true⟩ Mach.Comp.negOne none) := rfl
  have d10 : Mach.decodeLine env "0;JMP" =
    some (Mach.Instr.C ⟨false, false, false⟩ Mach.Comp.zero (some Mach.Jump.JMP)) := rfl
  simp only [VMT.compLogic, decodeProgram_cons, decodeProgram_nil,
    e1, e2, e3, e4, hjs, d1, d2, d3, d4, d5, d6, d7, d8, d9, d10,
    Option.bind_some, Option.map_some, Option.some_bind]
  rfl

set_option maxHeartbeats 4000000

theorem pcRun_step2 (prog : List Mach.Instr) (fuel pc : Nat) (s : Mach.State) :
    Mach.pcRun prog (fuel + 1) pc s =
      match prog.get? pc with
      | none => some s
      | some i =>
        match Mach.execInstr i s with
        | (s2, some t) => Mach.pcRun prog fuel t.toNat s2
        | (s2, none) => Mach.pcRun prog fuel (pc + 1) s2 := by
  rw [Mach.pcRun]

set_option maxHeartbeats 4000000

theorem compLogic_run_true
    (st : Mach.State) (jd : Mach.Jump) (x y sp : Int)
    (hsp : st.ram 0 = sp) (hsp3 : 3 ≤ sp)
    (hx : st.ram (sp - 2) = x) (hy : st.ram (sp - 1) = y)
    (hcond : Mach.condHolds jd (x - y) = true) :
    ((Mach.pcRun [Mach.Instr.A 0,
       Mach.Instr.C ⟨false, false, true⟩ Mach.Comp.Mminus1 none,
       Mach.Instr.C ⟨true, false, false⟩ Mach.Comp.M none,
       Mach.Instr.C ⟨false, true, false⟩ Mach.Comp.M none,
       Mach.Instr.C ⟨true, false, false⟩ Mach.Comp.Aminus1 none,
       Mach.Instr.C ⟨false, true, false⟩ Mach.Comp.MminusD none,
       Mach.Instr.A 13,
       Mach.Instr.C ⟨false, false, false⟩ Mach.Comp.D (some jd),
       Mach.Instr.A 0,
       Mach.Instr.C ⟨true, false, false⟩ Mach.Comp.Mminus1 none,
       Mach.Instr.C ⟨false, false, true⟩ Mach.Comp.zero none,
       Mach.Instr.A 17,
       Mach.Instr.C ⟨false, false, false⟩ Mach.Comp.zero (some Mach.Jump.JMP),
       Mach.Instr.L,
       Mach.Instr.A 0,
       Mach.Instr.C ⟨true, false, false⟩ Mach.Comp.Mminus1 none,
       Mach.Instr.C ⟨false, false, true⟩ Mach.Comp.negOne none,
       Mach.Instr.L] 20 0 st).map (fun s => s.ram (sp - 2)) = some (-1)) ∧
    ((Mach.pcRun [Mach.Instr.A 0,
       Mach.Instr.C ⟨false, false, true⟩ Mach.Comp.Mminus1 none,
       Mach.Instr.C ⟨true, false, false⟩ Mach.Comp.M none,
       Mach.Instr.C ⟨false, true, false⟩ Mach.Comp.M none,
       Mach.Instr.C ⟨true, false, false⟩ Mach.Comp.Aminus1 none,
       Mach.Instr.C ⟨false, true, false⟩ Mach.Comp.MminusD none,
       Mach.Instr.A 13,
       Mach.Instr.C ⟨false, false, false⟩ Mach.Comp.D (some jd),
       Mach.Instr.A 0,
       Mach.Instr.C ⟨true, false, false⟩ Mach.Comp.Mminus1 none,
       Mach.Instr.C ⟨false, false, true⟩ Mach.Comp.zero none,
       Mach.Instr.A 17,
       Mach.Instr.C ⟨false, false, false⟩ Mach.Comp.zero (some Mach.Jump.JMP),
       Mach.Instr.L,
       Mach.Instr.A 0,
       Mach.Instr.C ⟨true, false, false⟩ Mach.Comp.Mminus1 none,
       Mach.Instr.C ⟨false, false, true⟩ Mach.Comp.negOne none,
       Mach.Instr.L] 20 0 st).map (fun s => s.ram 0) = some (sp - 1)) := by
  have hx2 : st.ram (sp - 1 - 1) = x := by
    rw [show sp - 1 - 1 = sp - 2 by ring, hx]
  rw [show (20 : Nat) = 19 + 1 from rfl, pcRun_step2]
  simp (disch := omega) only [List.get?, Mach.execInstr, Mach.evalComp,
    eq_self_iff_true, Bool.false_eq_true, if_true, if_false,
    wr_eq_read, wr_ne_read, hsp, hx2, hy]
  rw [show (19 : Nat) = 18 + 1 from rfl, pcRun_step2]
  simp (disch := omega) only [List.get?, Mach.execInstr, Mach.evalComp,
    eq_self_iff_true, Bool.false_eq_true, if_true, if_false,
    wr_eq_read, wr_ne_read, hsp, hx2, hy]
  rw [show (18 : Nat) = 17 + 1 from rfl, pcRun_step2]
  simp (disch := omega) only [List.get?, Mach.execInstr, Mach.evalComp,
    eq_self_iff_true, Bool.false_eq_true, if_true, if_false,
    wr_eq_read, wr_ne_read, hsp, hx2, hy]
  rw [show (17 : Nat) = 16 + 1 from rfl, pcRun_step2]
  simp (disch := omega) only [List.get?, Mach.execInstr, Mach.evalComp,
    eq_self_iff_true, Bool.false_eq_true, if_true, if_false,
    wr_eq_read, wr_ne_read, hsp, hx2, hy]
  rw [show (16 : Nat) = 15 + 1 from rfl, pcRun_step2]
  simp (disch := omega) only [List.get?, Mach.execInstr, Mach.evalComp,
    eq_self_iff_true, Bool.false_eq_true, if_true, if_false,
    wr_eq_read, wr_ne_read, hsp, hx2, hy]
  rw [show (15 : Nat) = 14 + 1 from rfl, pcRun_step2]
  simp (disch := omega) only [List.get?, Mach.execInstr, Mach.evalComp,
    eq_self_iff_true, Bool.false_eq_true, if_true, if_false,
    wr_eq_read, wr_ne_read, hsp, hx2, hy]
  rw [show (14 : Nat) = 13 + 1 from rfl, pcRun_step2]
  simp (disch := omega) only [List.get?, Mach.execInstr, Mach.evalComp,
    eq_self_iff_true, Bool.false_eq_true, if_true, if_false,
    wr_eq_read, wr_ne_read, hsp, hx2, hy]
  rw [show (13 : Nat) = 12 + 1 from rfl, pcRun_step2]
  simp (disch := omega) only [List.get?, Mach.execInstr, Mach.evalComp,
    eq_self_iff_true, Bool.false_eq_true, if_true, if_false,
    wr_eq_read, wr_ne_read, hsp, hx2, hy]
  rw [hcond]
  simp only [eq_self_iff_true, if_true, Int.toNat_ofNat]
  rw [show (12 : Nat) = 11 + 1 from rfl, pcRun_step2]
  simp (disch := omega) only [List.get?, Mach.execInstr, Mach.evalComp,
    eq_self_iff_true, Bool.false_eq_true, if_true, if_false,
    wr_eq_read, wr_ne_read, hsp, hx2, hy]
  rw [show (11 : Nat) = 10 + 1 from rfl, pcRun_step2]
  simp (disch := omega) only [List.get?, Mach.execInstr, Mach.evalComp,
    eq_self_iff_true, Bool.false_eq_true, if_true, if_false,
    wr_eq_read, wr_ne_read, hsp, hx2, hy]
  rw [show (10 : Nat) = 9 + 1 from rfl, pcRun_step2]
  simp (disch := omega) only [List.get?, Mach.execInstr, Mach.evalComp,
    eq_self_iff_true, Bool.false_eq_true, if_true, if_false,
    wr_eq_read, wr_ne_read, hsp, hx2, hy]
  rw [show (9 : Nat) = 8 + 1 from rfl, pcRun_step2]
  simp (disch := omega) only [List.get?, Mach.execInstr, Mach.evalComp,
    eq_self_iff_true, Bool.false_eq_true, if_true, if_false,
    wr_eq_read, wr_ne_read, hsp, hx2, hy]
  rw [show (8 : Nat) = 7 + 1 from rfl, pcRun_step2]
  simp (disch := omega) only [List.get?, Mach.execInstr, Mach.evalComp,
    eq_self_iff_true, Bool.false_eq_true, if_true, if_false,
    wr_eq_read, wr_ne_read, hsp, hx2, hy]
  rw [show (7 : Nat) = 6 + 1 from rfl, pcRun_step2]
  simp (disch := omega) only [List.get?, Mach.execInstr, Mach.evalComp,
    eq_self_iff_true, Bool.false_eq_true, if_true, if_false,
    wr_eq_read, wr_ne_read, hsp, hx2, hy]
  constructor <;>
    simp (disch := omega) [wr_eq_read, wr_ne_read, hsp, hx2, hy] <;>
    (ring_nf; simp (disch := omega) [wr_eq_read, wr_ne_read])

theorem compLogic_run_false
    (st : Mach.State) (jd : Mach.Jump) (x y sp : Int)
    (hsp : st.ram 0 = sp) (hsp3 : 3 ≤ sp)
    (hx : st.ram (sp - 2) = x) (hy : st.ram (sp - 1) = y)
    (hcond : Mach.condHolds jd (x - y) = false) :
    ((Mach.pcRun [Mach.Instr.A 0,
       Mach.Instr.C ⟨false, false, true⟩ Mach.Comp.Mminus1 none,
       Mach.Instr.C ⟨true, false, false⟩ Mach.Comp.M none,
       Mach.Instr.C ⟨false, true, false⟩ Mach.Comp.M none,
       Mach.Instr.C ⟨true, false, false⟩ Mach.Comp.Aminus1 none,
       Mach.Instr.C ⟨false, true, false⟩ Mach.Comp.MminusD none,
       Mach.Instr.A 13,
       Mach.Instr.C ⟨false, false, false⟩ Mach.Comp.D (some jd),
       Mach.Instr.A 0,
       Mach.Instr.C ⟨true, false, false⟩ Mach.Comp.Mminus1 none,
       Mach.Instr.C ⟨false, false, true⟩ Mach.Comp.zero none,
       Mach.Instr.A 17,
       Mach.Instr.C ⟨false, false, false⟩ Mach.Comp.zero (some Mach.Jump.JMP),
       Mach.Instr.L,
       Mach.Instr.A 0,
       Mach.Instr.C ⟨true, false, false⟩ Mach.Comp.Mminus1 none,
       Mach.Instr.C ⟨false, false, true⟩ Mach.Comp.negOne none,
       Mach.Instr.L] 20 0 st).map (fun s => s.ram (sp - 2)) = some 0) ∧
    ((Mach.pcRun [Mach.Instr.A 0,
       Mach.Instr.C ⟨false, false, true⟩ Mach.Comp.Mminus1 none,
       Mach.Instr.C ⟨true, false, false⟩ Mach.Comp.M none,
       Mach.Instr.C ⟨false, true, false⟩ Mach.Comp.M none,
       Mach.Instr.C ⟨true, false, false⟩ Mach.Comp.Aminus1 none,
       Mach.Instr.C ⟨false, true, false⟩ Mach.Comp.MminusD none,
       Mach.Instr.A 13,
       Mach.Instr.C ⟨false, false, false⟩ Mach.Comp.D (some jd),
       Mach.Instr.A 0,
       Mach.Instr.C ⟨true, false, false⟩ Mach.Comp.Mminus1 none,
       Mach.Instr.C ⟨false, false, true⟩ Mach.Comp.zero none,
       Mach.Instr.A 17,
       Mach.Instr.C ⟨false, false, false⟩ Mach.Comp.zero (some Mach.Jump.JMP),
       Mach.Instr.L,
       Mach.Instr.A 0,
       Mach.Instr.C ⟨true, false, false⟩ Mach.Comp.Mminus1 none,
       Mach.Instr.C ⟨false, false, true⟩ Mach.Comp.negOne none,
       Mach.Instr.L] 20 0 st).map (fun s => s.ram 0) = some (sp - 1)) := by
  have hx2 : st.ram (sp - 1 - 1) = x := by
    rw [show sp - 1 - 1 = sp - 2 by ring, hx]
  rw [show (20 : Nat) = 19 + 1 from rfl, pcRun_step2]
  simp (disch := omega) only [List.get?, Mach.execInstr, Mach.evalComp,
    eq_self_iff_true, Bool.false_eq_true, if_true, if_false,
    wr_eq_read, wr_ne_read, hsp, hx2, hy]
  rw [show (19 : Nat) = 18 + 1 from rfl, pcRun_step2]
  simp (disch := omega) only [List.get?, Mach.execInstr, Mach.evalComp,
    eq_self_iff_true, Bool.false_eq_true, if_true, if_false,
    wr_eq_read, wr_ne_read, hsp, hx2, hy]
  rw [show (18 : Nat) = 17 + 1 from rfl, pcRun_step2]
  simp (disch := omega) only [List.get?, Mach.execInstr, Mach.evalComp,
    eq_self_iff_true, Bool.false_eq_true, if_true, if_false,
    wr_eq_read, wr_ne_read, hsp, hx2, hy]
  rw [show (17 : Nat) = 16 + 1 from rfl, pcRun_step2]
  simp (disch := omega) only [List.get?, Mach.execInstr, Mach.evalComp,
    eq_self_iff_true, Bool.false_eq_true, if_true, if_false,
    wr_eq_read, wr_ne_read, hsp, hx2, hy]
  rw [show (16 : Nat) = 15 + 1 from rfl, pcRun_step2]
  simp (disch := omega) only [List.get?, Mach.execInstr, Mach.evalComp,
    eq_self_iff_true, Bool.false_eq_true, if_true, if_false,
    wr_eq_read, wr_ne_read, hsp, hx2, hy]
  rw [show (15 : Nat) = 14 + 1 from rfl, pcRun_step2]
  simp (disch := omega) only [List.get?, Mach.execInstr, Mach.evalComp,
    eq_self_iff_true, Bool.false_eq_true, if_true, if_false,
    wr_eq_read, wr_ne_read, hsp, hx2, hy]
  rw [show (14 : Nat) = 13 + 1 from rfl, pcRun_step2]
  simp (disch := omega) only [List.get?, Mach.execInstr, Mach.evalComp,
    eq_self_iff_true, Bool.false_eq_true, if_true, if_false,
    wr_eq_read, wr_ne_read, hsp, hx2, hy]
  rw [show (13 : Nat) = 12 + 1 from rfl, pcRun_step2]
  simp (disch := omega) only [List.get?, Mach.execInstr, Mach.evalComp,
    eq_self_iff_true, Bool.false_eq_true, if_true, if_false,
    wr_eq_read, wr_ne_read, hsp, hx2, hy]
  rw [hcond]
  simp only [Bool.false_eq_true, if_false]
  rw [show (12 : Nat) = 11 + 1 from rfl, pcRun_step2]
  simp (disch := omega) only [List.get?, Mach.execInstr, Mach.evalComp,
    eq_self_iff_true, Bool.false_eq_true, if_true, if_false,
    wr_eq_read, wr_ne_read, hsp, hx2, hy]
  rw [show (11 : Nat) = 10 + 1 from rfl, pcRun_step2]
  simp (disch := omega) only [List.get?, Mach.execInstr, Mach.evalComp,
    eq_self_iff_true, Bool.false_eq_true, if_true, if_false,
    wr_eq_read, wr_ne_read, hsp, hx2, hy]
  rw [show (10 : Nat) = 9 + 1 from rfl, pcRun_step2]
  simp (disch := omega) only [List.get?, Mach.execInstr, Mach.evalComp,
    eq_self_iff_true, Bool.false_eq_true, if_true, if_false,
    wr_eq_read, wr_ne_read, hsp, hx2, hy]
  rw [show (9 : Nat) = 8 + 1 from rfl, pcRun_step2]
  simp (disch := omega) only [List.get?, Mach.execInstr, Mach.evalComp,
    eq_self_iff_true, Bool.false_eq_true, if_true, if_false,
    wr_eq_read, wr_ne_read, hsp, hx2, hy]
  rw [show (8 : Nat) = 7 + 1 from rfl, pcRun_step2]
  simp (disch := omega) only [List.get?, Mach.execInstr, Mach.evalComp, Mach.condHolds,
    eq_self_iff_true, Bool.false_eq_true, if_true, if_false, Int.toNat_ofNat,
    wr_eq_read, wr_ne_read, hsp, hx2, hy]
  rw [show (7 : Nat) = 6 + 1 from rfl, pcRun_step2]
  simp (disch := omega) only [List.get?, Mach.execInstr, Mach.evalComp,
    eq_self_iff_true, Bool.false_eq_true, if_true, if_false,
    wr_eq_read, wr_ne_read, hsp, hx2, hy]
  rw [show (6 : Nat) = 5 + 1 from rfl, pcRun_step2]
  simp (disch := omega) only [List.get?, Mach.execInstr, Mach.evalComp,
    eq_self_iff_true, Bool.false_eq_true, if_true, if_false,
    wr_eq_read, wr_ne_read, hsp, hx2, hy]
  constructor <;>
    simp (disch := omega) [wr_eq_read, wr_ne_read, hsp, hx2, hy] <;>
    (ring_nf; simp (disch := omega) [wr_eq_read, wr_ne_read])


set_option maxHeartbeats 4000000 in
/-- C4: `translate` on a comparison (`eq`, `lt`, `gt`) emits `comp_logic` at
the instance's current counter and increments the counter; the family of
labels `pref_k` / `pref_k_END` minted by the first `n` comparisons is
pairwise distinct (`2n` distinct labels); and the emitted block, decoded
with its two labels bound to their instruction indices and run from a state
with SP = sp ≥ 3 holding `x` and `y` on top of the stack, pops both, leaves
SP = sp − 1, and stores `-1` at the new stack top when the comparison holds
and `0` otherwise, branching with `JEQ`/`JLT`/`JGT` on `D = x − y`. -/
theorem C4_comparison_logic
    (env : String → Int) (st : Mach.State)
    (pref : String) (k : Nat) (x y sp : Int)
    (hpref : ∀ c ∈ pref.data, c.isWhitespace = false ∧ c ≠ '/')
    (henv0 : env "SP" = 0)
    (henvT : env (VMT.compLabel pref k) = 13)
    (henvE : env (VMT.compLabel pref k ++ "_END") = 17)
    (hsp : st.ram 0 = sp) (hsp3 : 3 ≤ sp)
    (hx : st.ram (sp - 2) = x) (hy : st.ram (sp - 1) = y) :
    (∀ s : VMT.Hack, ∀ op : VMT.Operator, VMT.isComparison (VMT.Command.arithmetic op) = true →
      VMT.translate s (VMT.Command.arithmetic op) =
        Except.ok (some (VMT.compLogic s.counter s.labelPref (VMT.jumpOf op)),
          { s with counter := s.counter + 1 })) ∧
    (∀ n : Nat, (VMT.compLabelsList pref n).Nodup) ∧
    (∀ op : VMT.Operator, VMT.isComparison (VMT.Command.arithmetic op) = true →
      ∀ instrs,
        Mach.decodeProgram env (VMT.compLogic k pref (VMT.jumpOf op)) = some instrs →
        ((Mach.pcRun instrs 20 0 st).map (fun s => s.ram 0) = some (sp - 1)) ∧
        (VMT.relOf op x y →
          (Mach.pcRun instrs 20 0 st).map (fun s => s.ram (sp - 2)) = some (-1)) ∧
        (¬ VMT.relOf op x y →
          (Mach.pcRun instrs 20 0 st).map (fun s => s.ram (sp - 2)) = some 0)) := by
  refine ⟨?_, compLabelsList_nodup pref, ?_⟩
  · intro s op hop
    cases op <;> first
      | exact absurd hop (by decide)
      | rfl
  · intro op hop
    cases op <;> try exact absurd hop (by decide)
    case eq =>
      intro instrs hinstr
      rw [show VMT.jumpOf VMT.Operator.eq = "JEQ" from rfl] at hinstr
      rw [decode_compLogic env pref k "JEQ" Mach.Jump.JEQ hpref rfl] at hinstr
      injection hinstr with hinstr
      subst hinstr
      rw [henv0, henvT, henvE]
      have ht : x = y →
          Mach.condHolds Mach.Jump.JEQ (x - y) = true := by
        intro h
        simp [Mach.condHolds]
        omega
      have hf : ¬ x = y →
          Mach.condHolds Mach.Jump.JEQ (x - y) = false := by
        intro h
        simp [Mach.condHolds]
        omega
      refine ⟨?_, ?_, ?_⟩
      · by_cases hrel : x = y
        · exact (compLogic_run_true st _ x y sp hsp hsp3 hx hy (ht hrel)).2
        · exact (compLogic_run_false st _ x y sp hsp hsp3 hx hy (hf hrel)).2
      · intro hrel
        exact (compLogic_run_true st _ x y sp hsp hsp3 hx hy (ht hrel)).1
      · intro hrel
        exact (compLogic_run_false st _ x y sp hsp hsp3 hx hy (hf hrel)).1
    case lt =>
      intro instrs hinstr
      rw [show VMT.jumpOf VMT.Operator.lt = "JLT" from rfl] at hinstr
      rw [decode_compLogic env pref k "JLT" Mach.Jump.JLT hpref rfl] at hinstr
      injection hinstr with hinstr
      subst hinstr
      rw [henv0, henvT, henvE]
      have ht : x < y →
          Mach.condHolds Mach.Jump.JLT (x - y) = true := by
        intro h
        simp [Mach.condHolds]
        omega
      have hf : ¬ x < y →
          Mach.condHolds Mach.Jump.JLT (x - y) = false := by
        intro h
        simp [Mach.condHolds]
        omega
      refine ⟨?_, ?_, ?_⟩
      · by_cases hrel : x < y
        · exact (compLogic_run_true st _ x y sp hsp hsp3 hx hy (ht hrel)).2
        · exact (compLogic_run_false st _ x y sp hsp hsp3 hx hy (hf hrel)).2
      · intro hrel
        exact (compLogic_run_true st _ x y sp hsp hsp3 hx hy (ht hrel)).1
      · intro hrel
        exact (compLogic_run_false st _ x y sp hsp hsp3 hx hy (hf hrel)).1
    case gt =>
      intro instrs hinstr
      rw [show VMT.jumpOf VMT.Operator.gt = "JGT" from rfl] at hinstr
      rw [decode_compLogic env pref k "JGT" Mach.Jump.JGT hpref rfl] at hinstr
      injection hinstr with hinstr
      subst hinstr
      rw [henv0, henvT, henvE]
      have ht : x > y →
          Mach.condHolds Mach.Jump.JGT (x - y) = true := by
        intro h
        simp [Mach.condHolds]
        omega
      have hf : ¬ x > y →
          Mach.condHolds Mach.Jump.JGT (x - y) = false := by
        intro h
        simp [Mach.condHolds]
        omega
      refine ⟨?_, ?_, ?_⟩
      · by_cases hrel : x > y
        · exact (compLogic_run_true st _ x y sp hsp hsp3 hx hy (ht hrel)).2
        · exact (compLogic_run_false st _ x y sp hsp hsp3 hx hy (hf hrel)).2
      · intro hrel
        exact (compLogic_run_true st _ x y sp hsp hsp3 hx hy (ht hrel)).1
      · intro hrel
        exact (compLogic_run_false st _ x y sp hsp hsp3 hx hy (hf hrel)).1

/-- C4 (witness): the comparison theorem at prefix `FOO`, counter 0,
environment `envCmp` and state `stRet` (x = 606, y = 608, sp = 305). -/
theorem C4_comparison_logic_witness :
    ((∀ s : VMT.Hack, ∀ op : VMT.Operator, VMT.isComparison (VMT.Command.arithmetic op) = true →
      VMT.translate s (VMT.Command.arithmetic op) =
        Except.ok (some (VMT.compLogic s.counter s.labelPref (VMT.jumpOf op)),
          { s with counter := s.counter + 1 })) ∧
    (∀ n : Nat, (VMT.compLabelsList "FOO" n).Nodup) ∧
    (∀ op : VMT.Operator, VMT.isComparison (VMT.Command.arithmetic op) = true →
      ∀ instrs,
        Mach.decodeProgram Mach.envCmp (VMT.compLogic 0 "FOO" (VMT.jumpOf op)) =
          some instrs →
        ((Mach.pcRun instrs 20 0 Mach.stRet).map (fun s => s.ram 0) = some (305 - 1)) ∧
        (VMT.relOf op 606 608 →
          (Mach.pcRun instrs 20 0 Mach.stRet).map (fun s => s.ram (305 - 2)) =
            some (-1)) ∧
        (¬ VMT.relOf op 606 608 →
          (Mach.pcRun instrs 20 0 Mach.stRet).map (fun s => s.ram (305 - 2)) =
            some 0))) :=
  C4_comparison_logic Mach.envCmp Mach.stRet "FOO" 0 606 608 305
    (by decide) rfl (by decide) (by decide) rfl (by decide) (by decide) (by decide)

theorem fieldVarsCount_push (t : Jack.SymbolTable) (n : String) (ty : Jack.JType)
    (k : Jack.SymbolKind) :
    (t.push n ty k).fieldVarsCount =
      t.fieldVarsCount + (if k = Jack.SymbolKind.field then 1 else 0) := by
  cases k <;>
    simp [Jack.SymbolTable.push, Jack.SymbolTable.fieldVarsCount, List.filter_append] <;>
    push_cast <;> ring

theorem localsFold_inner (names : List String) (ty : Jack.JType)
    (t : Jack.SymbolTable) (a : Int) :
    (names.foldl
      (fun acc nm => (acc.1.push nm ty Jack.SymbolKind.localK, acc.2 + 1)) (t, a)).2 =
      a + names.length := by
  induction names generalizing t a with
  | nil => simp
  | cons nm rest ih =>
    rw [List.foldl_cons, ih]
    simp only [List.length_cons]
    push_cast
    omega

theorem buildSubroutineTable_snd (cn : String) (sd : Jack.SubroutineDec) :
    (Jack.buildSubroutineTable cn sd).2 = (Jack.numLocals sd : Int) := by
  rw [Jack.buildSubroutineTable, Jack.numLocals]
  generalize (match sd.subroutineType with
    | Jack.SubroutineType.method =>
      Jack.SymbolTable.push Jack.SymbolTable.new "this"
        (Jack.JType.className cn) Jack.SymbolKind.argument
    | _ => Jack.SymbolTable.new) = t1
  generalize sd.parameters.foldl
    (fun t p => t.push p.name p.paramType Jack.SymbolKind.argument) t1 = t2
  have hgen : ∀ (vds : List Jack.VarDec) (t : Jack.SymbolTable) (a : Int),
      (vds.foldl
        (fun (acc : Jack.SymbolTable × Int) (vd : Jack.VarDec) =>
          let acc1 := (acc.1.push vd.varName vd.varType Jack.SymbolKind.localK, acc.2 + 1)
          vd.extraVarNames.foldl
            (fun a nm => (a.1.push nm vd.varType Jack.SymbolKind.localK, a.2 + 1)) acc1)
        (t, a)).2 =
      a + (((vds.map (fun vd => 1 + vd.extraVarNames.length)).sum : Nat) : Int) := by
    intro vds
    induction vds with
    | nil => intro t a; simp
    | cons vd rest ih =>
      intro t a
      rw [List.foldl_cons]
      have h1 := localsFold_inner vd.extraVarNames vd.varType
        (t.push vd.varName vd.varType Jack.SymbolKind.localK) (a + 1)
      rcases hfold : vd.extraVarNames.foldl
          (fun (a : Jack.SymbolTable × Int) nm =>
            (a.1.push nm vd.varType Jack.SymbolKind.localK, a.2 + 1))
          (t.push vd.varName vd.varType Jack.SymbolKind.localK, a + 1) with ⟨tmid, amid⟩
      rw [hfold] at h1
      simp only at h1
      show (rest.foldl _ (tmid, amid)).2 = _
      rw [ih tmid amid, h1]
      simp only [List.map_cons, List.sum_cons]
      push_cast
      omega
  simpa using hgen sd.body.varDecs t2 0

theorem classFold_inner (names : List String) (ty : Jack.JType) (k : Jack.SymbolKind)
    (t : Jack.SymbolTable) :
    (names.foldl (fun t nm => Jack.SymbolTable.push t nm ty k) t).fieldVarsCount =
      t.fieldVarsCount + (if k = Jack.SymbolKind.field then (names.length : Int) else 0) := by
  induction names generalizing t with
  | nil => simp
  | cons nm rest ih =>
    rw [List.foldl_cons, ih, fieldVarsCount_push]
    cases k <;> simp <;> push_cast <;> omega

theorem buildClassTable_fieldCount (t : Jack.SymbolTable) (decs : List Jack.ClassVarDec) :
    (Jack.buildClassTable t decs).fieldVarsCount =
      t.fieldVarsCount +
        ((((decs.filter (fun vd => vd.decType = Jack.ClassVarDecType.fieldDec)).map
          (fun vd => 1 + vd.extraVarNames.length)).sum : Nat) : Int) := by
  induction decs generalizing t with
  | nil => simp [Jack.buildClassTable]
  | cons vd rest ih =>
    simp only [Jack.buildClassTable] at ih ⊢
    rw [List.foldl_cons]
    rw [ih]
    rw [classFold_inner, fieldVarsCount_push]
    cases hdt : vd.decType <;>
      (try simp [Jack.ClassVarDecType.toSymbolKind, hdt, List.filter_cons]) <;>
      (try simp only [List.map_cons, List.sum_cons]) <;>
      push_cast <;>
      omega


/-- C6: `compile_subroutine` first emits `function ClassName.subName nLocals`
where nLocals is the number of local variables declared in the body
(`n_vars` of the subroutine-table pass equals that count); a constructor then
emits `push constant fieldCount; call Memory.alloc 1; pop pointer 0` with
fieldCount the class's field-variable count (the class table built by
`compile_class` counts exactly the `field` declarations), a method emits
`push argument 0; pop pointer 0`, and a function emits no prologue; the
statements' code follows. -/
theorem C6_subroutine_prologue :
    (∀ cn : String, ∀ sd : Jack.SubroutineDec,
      (Jack.buildSubroutineTable cn sd).2 = (Jack.numLocals sd : Int)) ∧
    (∀ t : Jack.SymbolTable, ∀ cls : Jack.Class,
      (Jack.buildClassTable t cls.classVarDecs).fieldVarsCount =
        t.fieldVarsCount + ((Jack.numFields cls : Nat) : Int)) ∧
    (∀ vm : Jack.VMState, ∀ cls : Jack.Class,
      Jack.compileClass vm cls =
        Jack.compileSubroutines
          { vm with classTable := Jack.buildClassTable vm.classTable cls.classVarDecs }
          cls.subroutineDecs) ∧
    (∀ vm : Jack.VMState, ∀ sd : Jack.SubroutineDec,
      ∀ stmts : List String, ∀ vm2 : Jack.VMState,
      Jack.compileStatements
          { vm with subroutineTable := (Jack.buildSubroutineTable vm.className sd).1 }
          sd.returnType sd.body.statements = Except.ok (stmts, vm2) →
      Jack.compileSubroutine vm sd = Except.ok
        (Jack.vmFunction (vm.className ++ "." ++ sd.name) (Jack.numLocals sd) ::
          (match sd.subroutineType with
           | Jack.SubroutineType.constructor =>
             [Jack.vmPush "constant" vm.classTable.fieldVarsCount,
              Jack.vmCall "Memory.alloc" 1, Jack.vmPop "pointer" 0]
           | Jack.SubroutineType.method =>
             [Jack.vmPush "argument" 0, Jack.vmPop "pointer" 0]
           | Jack.SubroutineType.function => []) ++ stmts, vm2)) := by
  refine ⟨buildSubroutineTable_snd, ?_, fun _ _ => rfl, ?_⟩
  · intro t cls
    exact buildClassTable_fieldCount t cls.classVarDecs
  · intro vm sd stmts vm2 h
    have hn := buildSubroutineTable_snd vm.className sd
    rcases hbt : Jack.buildSubroutineTable vm.className sd with ⟨table, nVars⟩
    rw [hbt] at hn
    simp only at hn
    rw [hbt] at h
    simp only [Jack.compileSubroutine, hbt]
    simp only at h
    rw [h]
    subst hn
    rfl

/-- C6 (witness): the prologue theorem at the concrete constructor
`Point.new` with two locals and an empty statement list. -/
theorem C6_subroutine_prologue_witness :
    Jack.compileStatements Jack.vmPointMid Jack.sdPoint.returnType
        Jack.sdPoint.body.statements = Except.ok ([], Jack.vmPointMid) ∧
    Jack.compileSubroutine Jack.vmPoint Jack.sdPoint = Except.ok
      (Jack.vmFunction (Jack.vmPoint.className ++ "." ++ Jack.sdPoint.name)
          (Jack.numLocals Jack.sdPoint) ::
        (match Jack.sdPoint.subroutineType with
         | Jack.SubroutineType.constructor =>
           [Jack.vmPush "constant" Jack.vmPoint.classTable.fieldVarsCount,
            Jack.vmCall "Memory.alloc" 1, Jack.vmPop "pointer" 0]
         | Jack.SubroutineType.method =>
           [Jack.vmPush "argument" 0, Jack.vmPop "pointer" 0]
         | Jack.SubroutineType.function => []) ++ [], Jack.vmPointMid) :=
  ⟨rfl, C6_subroutine_prologue.2.2.2 Jack.vmPoint Jack.sdPoint [] Jack.vmPointMid rfl⟩
